import Mathlib

/-!
Date ordering comparator of `examples/006-sort-dates/example.cpp`.

A shallow embedding of `date_comparator` and of the sort that `main` drives with it.
`std::string` is a list of characters, a thrown exception is the error side of `Except`.

The helpers of the `mtl` library that the example calls (`mtl::string::replace`,
`mtl::string::split`, `mtl::to_num`) and `std::sort` are not part of the example sources;
they are modelled here from their documented contracts and each such definition says so.
-/

namespace mtl

/-- Where a `std::invalid_argument` was thrown from. Both origins are the same C++
exception type; the origin only records which `throw` produced it. -/
inductive invalid_argument_origin
  /-- thrown by `date_comparator` itself (line 48):
  "Error. One or more dates are incorrectly formatted." -/
  | incorrectly_formatted
  /-- thrown from inside `mtl::to_num` when the conversion is not possible -/
  | to_num_failed
  deriving DecidableEq

/-- Ways in which an evaluation can end without a value. -/
inductive Failure
  /-- a `std::invalid_argument` exception -/
  | invalid_argument (origin : invalid_argument_origin)
  /-- an index past the end handed to `std::vector::operator[]` -/
  | out_of_bounds
  deriving DecidableEq

deriving instance DecidableEq for Except

namespace string

/-- Modelled from the spec: `mtl::string::replace(value, match, replacement)` for single
characters is missing from the sources. "Replace every `-` and every `.` character in each
input with `/`. This is a pure character substitution": every occurrence of `old` becomes
`new`, every other character is kept. -/
def replace (value : List Char) (old new : Char) : List Char :=
  value.map (fun c => if c = old then new else c)

/-- Scanning loop of `split`: `skip` counts the characters of a just matched delimiter that
are still to be stepped over, `cur` is the token collected so far (reversed). -/
def split_loop (delimiter : List Char) : Nat → List Char → List Char → List (List Char)
  | _, [], cur => [cur.reverse]
  | skip + 1, _ :: rest, cur => split_loop delimiter skip rest cur
  | 0, c :: rest, cur =>
      if delimiter.isPrefixOf (c :: rest) then
        cur.reverse :: split_loop delimiter (delimiter.length - 1) rest []
      else
        split_loop delimiter 0 rest (c :: cur)

/-- Modelled from the spec: `mtl::string::split(value, delimiter)` is missing from the
sources. "A text-splitting utility (split on a single-character separator, preserving
empty-string semantics for consecutive separators)": the tokens between successive
occurrences of the delimiter, found left to right, empty tokens included. An empty
delimiter yields the whole input as the only token. -/
def split (value : List Char) (delimiter : List Char) : List (List Char) :=
  if delimiter = [] then [value] else split_loop delimiter 0 value []

end string

/-- Value of a decimal digit character, `none` for any other character. -/
def digit_value (c : Char) : Option Nat :=
  if c.isDigit then some (c.toNat - '0'.toNat) else none

/-- Reads a run of decimal digits, most significant first, onto the accumulator; `none` as
soon as a character is not a digit. -/
def parse_digits : List Char → Nat → Option Nat
  | [], acc => some acc
  | c :: cs, acc =>
      match digit_value c with
      | some d => parse_digits cs (acc * 10 + d)
      | none => none

/-- The largest value of `int`, taken as a 32-bit signed integer. -/
def INT_MAX : Int := 2147483647

/-- The smallest value of `int`, taken as a 32-bit signed integer. -/
def INT_MIN : Int := -2147483648

/-- Last step of a conversion to `int`: the number when an `int` can hold it; for any other
number the conversion is not possible and `std::invalid_argument` is thrown. -/
def in_int_range (number : Int) : Except Failure Int :=
  if INT_MIN ≤ number ∧ number ≤ INT_MAX then .ok number
  else .error (.invalid_argument .to_num_failed)

/-- Modelled from the spec: `mtl::to_num(value)` is missing from the sources. "Parse each
of the 3 fields as an integer. Fails with `FormatError` if any field is not a valid integer
literal (the conversion does not trim surrounding whitespace; leading/trailing non-digit
characters cause failure)". An integer literal is an optional minus sign followed by one or
more decimal digits and the whole input has to be one. The callers store the result in an
`int` (lines 56-62 of the date example: "it throws std::invalid_argument if the conversion
is not possible"), so a literal whose value an `int` cannot hold is not converted either. -/
def to_num (value : List Char) : Except Failure Int :=
  match value with
  | [] => .error (.invalid_argument .to_num_failed)
  | '-' :: digits =>
      if digits = [] then .error (.invalid_argument .to_num_failed)
      else
        match parse_digits digits 0 with
        | some n => in_int_range (-(n : Int))
        | none => .error (.invalid_argument .to_num_failed)
  | digits =>
      match parse_digits digits 0 with
      | some n => in_int_range (n : Int)
      | none => .error (.invalid_argument .to_num_failed)

end mtl

open mtl

/-- Indexing `parts[i]` on a `std::vector<std::string>`: the element when `i` is in range,
and no defined value past the end. -/
def at_index (parts : List (List Char)) (i : Nat) : Except Failure (List Char) :=
  match parts.get? i with
  | some part => .ok part
  | none => .error .out_of_bounds

/-- Lines 26-37 for one argument: the copy of the date with all hyphens and then all dots
converted to forward slashes. -/
def normalized (date : List Char) : List Char :=
  mtl.string.replace (mtl.string.replace date '-' '/') '.' '/'

/-- The function `date_comparator(rhs_date, lhs_date)` of
`examples/006-sort-dates/example.cpp`, lines 24-102: `true` when the first date is before
the second, an exception when one of the two is incorrectly formatted. -/
def date_comparator (rhs_date lhs_date : List Char) : Except Failure Bool := do
  let rhs := normalized rhs_date
  let lhs := normalized lhs_date
  let parts_rhs := mtl.string.split rhs "/".toList
  let parts_lhs := mtl.string.split lhs "/".toList
  if parts_rhs.length ≠ 3 ∨ parts_lhs.length ≠ 3 then
    throw (Failure.invalid_argument .incorrectly_formatted)
  let day_rhs ← to_num (← at_index parts_rhs 0)
  let month_rhs ← to_num (← at_index parts_rhs 1)
  let year_rhs ← to_num (← at_index parts_rhs 2)
  let day_lhs ← to_num (← at_index parts_lhs 0)
  let month_lhs ← to_num (← at_index parts_lhs 1)
  let year_lhs ← to_num (← at_index parts_lhs 2)
  if year_rhs < year_lhs then
    return true
  else if year_rhs > year_lhs then
    return false
  else
    if month_rhs < month_lhs then
      return true
    else if month_rhs > month_lhs then
      return false
    else
      if day_rhs < day_lhs then
        return true
      else
        return false

/-- Lines 26-42 for one argument: the parts the normalized date splits into on "/". -/
def fields (date : List Char) : List (List Char) :=
  mtl.string.split (normalized date) "/".toList

/-- The spec's `ParsedDate`: "a triple of integers `(day, month, year)` derived from a
RawDateString". -/
structure ParsedDate where
  day : Int
  month : Int
  year : Int
  deriving DecidableEq

/-- The triple in the priority order of the comparison, "year, then month, then day", as an
element of the lexicographic product. -/
def ParsedDate.key (p : ParsedDate) : ℤ ×ₗ ℤ ×ₗ ℤ :=
  toLex (p.year, toLex (p.month, p.day))

/-- A field is integer-parseable when `mtl::to_num` converts it. -/
def integer_parseable (field : List Char) : Prop :=
  (to_num field).isOk = true

instance (field : List Char) : Decidable (integer_parseable field) := by
  unfold integer_parseable; infer_instance

/-- The spec's invariant: "a RawDateString is well-formed iff, after normalizing all
separators to one canonical separator, splitting on that separator yields exactly 3
non-empty-or-parseable integer fields". -/
def well_formed (date : List Char) : Prop :=
  (fields date).length = 3 ∧ ∀ field ∈ fields date, integer_parseable field

instance (date : List Char) : Decidable (well_formed date) := by
  unfold well_formed; infer_instance

/-- The `ParsedDate` of a date string: its three fields, in the order day, month, year,
each converted with `mtl::to_num`; `none` when the string is not well-formed. -/
def parsed_date (date : List Char) : Option ParsedDate :=
  match fields date with
  | [d, m, y] =>
      match to_num d, to_num m, to_num y with
      | .ok day, .ok month, .ok year => some ⟨day, month, year⟩
      | _, _, _ => none
  | _ => none

/-- The spec's "valid integer literal": an optional minus sign, then one or more decimal
digits, and nothing else. -/
def valid_integer_literal (field : List Char) : Prop :=
  match field with
  | '-' :: digits => digits ≠ [] ∧ ∀ c ∈ digits, c.isDigit = true
  | digits => digits ≠ [] ∧ ∀ c ∈ digits, c.isDigit = true

instance (field : List Char) : Decidable (valid_integer_literal field) := by
  unfold valid_integer_literal; split <;> infer_instance

/-- The spec's "equivalent in ordering": the comparator returns "not-before" in both
directions. -/
def equivalent_in_ordering (a b : List Char) : Prop :=
  date_comparator a b = .ok false ∧ date_comparator b a = .ok false

instance (a b : List Char) : Decidable (equivalent_in_ordering a b) := by
  unfold equivalent_in_ordering; infer_instance

/-- Insertion step of the sort: `value` goes in front of the first element that `comp`
does not order before it. An exception of `comp` ends the insertion. -/
def insert_sorted {α ε : Type} (comp : α → α → Except ε Bool) (value : α) :
    List α → Except ε (List α)
  | [] => pure [value]
  | first :: rest => do
      if (← comp first value) then
        return first :: (← insert_sorted comp value rest)
      else
        return value :: first :: rest

/-- Modelled from the spec: `std::sort(first, last, comp)` belongs to the C++ standard
library and is not part of the sources. "A comparison-based sort" that reorders the sequence
"using only pairwise comparisons" and on which an exception of the comparator "propagates
out of the comparison and aborts the enclosing sort operation"; here an insertion sort. A
range of fewer than two elements is returned without any call of `comp`. -/
def std.sort {α ε : Type} (comp : α → α → Except ε Bool) : List α → Except ε (List α)
  | [] => pure []
  | value :: rest => do insert_sorted comp value (← std.sort comp rest)

/-- Lines 130-137 of `main`: the dates sorted with `date_comparator`. -/
def sort_dates (dates : List (List Char)) : Except Failure (List (List Char)) :=
  std.sort (fun rhs lhs => date_comparator rhs lhs) dates

/-- Modelled from the spec: `mtl::string::join_all(first, last, delimiter)` is missing from
the sources; the spec only names it among the library calls ("string join/split") and the
example that calls it documents it as "join all elements of a container to an std::string
each seperate with a delimiter": the elements in order, with the delimiter between every
two neighbours. -/
def mtl.string.join_all : List (List Char) → List Char → List Char
  | [], _ => []
  | [token], _ => token
  | token :: rest, delimiter => token ++ delimiter ++ mtl.string.join_all rest delimiter

/-- The spec's "three admissible field separators: `/`, `-`, or `.`". -/
def is_separator (c : Char) : Prop :=
  c = '/' ∨ c = '-' ∨ c = '.'

instance (c : Char) : Decidable (is_separator c) := by
  unfold is_separator; infer_instance

/-- A piece of text that holds none of the three separator characters. -/
def separator_free (text : List Char) : Prop :=
  ∀ c ∈ text, ¬ is_separator c

instance (text : List Char) : Decidable (separator_free text) := by
  unfold separator_free; infer_instance

/-- An integer literal as it can stand in a date field: one or more decimal digits. (A sign
cannot be part of a field, the hyphen being a separator.) -/
def unsigned_integer_literal (field : List Char) : Prop :=
  field ≠ [] ∧ ∀ c ∈ field, c.isDigit = true

instance (field : List Char) : Decidable (unsigned_integer_literal field) := by
  unfold unsigned_integer_literal; infer_instance

/-- The number a sequence of decimal digits denotes. -/
def decimal_value (digits : List Char) : Nat :=
  digits.foldl (fun acc c => acc * 10 + (c.toNat - '0'.toNat)) 0

/-- The text of a date string has an empty field in sight: two consecutive separators, a
leading separator or a trailing separator. -/
def has_empty_field (date : List Char) : Prop :=
  (∃ before after s₁ s₂, is_separator s₁ ∧ is_separator s₂ ∧
      date = before ++ s₁ :: s₂ :: after) ∨
    (∃ after s, is_separator s ∧ date = s :: after) ∨
    (∃ before s, is_separator s ∧ date = before ++ [s])

/-- One item written by `mtl::console::println`, told apart by the statement that wrote it. -/
inductive Printed
  /-- the message `ex.what()` of the caught exception (line 143) -/
  | what (origin : invalid_argument_origin)
  /-- a string literal of the program text -/
  | text (literal : String)
  /-- an element of the `dates` container (line 157) -/
  | date (value : List Char)
  deriving DecidableEq

/-- What a run of the program leaves behind: the lines written to the console, in order,
and the exit code of the process. -/
structure Run where
  output : List Printed
  exit_code : Nat
  deriving DecidableEq

/-- Lines 128-158 of `main` for a given content of the `dates` container: the sort inside
`try`, the `catch` of `std::invalid_argument` that reports and calls `std::exit(1)`, and
otherwise the header and the loop printing every date. An out-of-range index is no
exception and is caught by nothing. -/
def sort_and_print (dates : List (List Char)) : Except Failure Run :=
  match sort_dates dates with
  | .error (.invalid_argument origin) =>
      .ok ⟨[.what origin, .text "Sorting failed.", .text "Exiting."], 1⟩
  | .error .out_of_bounds => .error .out_of_bounds
  | .ok sorted =>
      .ok ⟨[.text "--------------", .text "SORTED DATES :", .text "--------------"] ++
        sorted.map Printed.date, 0⟩

/-- The `dates` container of `main`, lines 111-125 of
`examples/006-sort-dates/example.cpp`. -/
def sort_dates_example.dates : List (List Char) :=
  ["04.05.2020".toList, "02-05-2020".toList, "05/11/2020".toList, "03/05/2020".toList,
    "12/04/2021".toList, "04-05-2020".toList, "09/03/2021".toList, "04/07/2018".toList,
    "02/04/2019".toList, "01/03/2020".toList, "09.04.2019".toList, "22.04.2019".toList]

/-- The function `main` of `examples/006-sort-dates/example.cpp`. -/
def sort_dates_example.main : Except Failure Run :=
  sort_and_print sort_dates_example.dates

/-- Modelled from the spec: `mtl::string::join(a, b)` is missing from the sources; the spec
only names it among the library calls ("string join/split") and the example that calls it
documents it as "join two strings together": the first string followed by the second. -/
def mtl.string.join (first second : List Char) : List Char :=
  first ++ second

/-- Modelled from the spec: `mtl::string::strip(value)` is missing from the sources and the
spec does not describe it; the example that calls it documents it as "remove spaces from
the front and back". -/
def mtl.string.strip (value : List Char) : List Char :=
  ((value.dropWhile (fun c => c = ' ')).reverse.dropWhile (fun c => c = ' ')).reverse

/-- The largest value of `size_t`, taken as a 64-bit unsigned integer. -/
def SIZE_MAX : Nat := 2 ^ 64 - 1

/-- What `std::string::resize` can throw. -/
inductive resize_error
  /-- the exception `std::length_error`: the requested size is above `max_size()` -/
  | length_error
  /-- the exception `std::bad_alloc`: the allocation of the characters failed -/
  | bad_alloc
  deriving DecidableEq

/-- The exception `std::overflow_error`. -/
inductive overflow_error
  | thrown
  deriving DecidableEq

/-- Modelled from the spec: `mtl::numeric_cast<size_t>(value)` is missing from the sources
and the spec does not describe it; the example that calls it documents it as "convert the
signed integer to an unsigned integer safely [...], if the number can't be converted an
exception will be thrown": the same number when `size_t` can hold it, `std::overflow_error`
otherwise. -/
def mtl.numeric_cast_size_t (value : Int) : Except overflow_error Nat :=
  if 0 ≤ value ∧ value ≤ (SIZE_MAX : Int) then .ok value.toNat else .error .thrown

namespace password_generator

/-- Line 63 of `examples/005-random-password-generator/example.cpp`. -/
def lowercase_characters : List Char := "abcdefghijklmnopqrstuvwxyz".toList

/-- Line 64. -/
def uppercase_characters : List Char := "ABCDEFGHIJKLMNOPQRSTUVWXYZ".toList

/-- Line 65. -/
def numeric_characters : List Char := "1234567890".toList

/-- Line 66. -/
def special_characters : List Char := "~`!@#$%^&*()-_=+".toList

/-- The loop of lines 96-102: every character of the resized password, in order, is
replaced by what `mtl::random_choice(character_set)` points to. `mtl::random_choice` is
missing from the sources and not deterministic; `random_choice call container` stands for
the character its call number `call` yields on `container`. -/
def randomize (random_choice : Nat → List Char → Char) (character_set : List Char) :
    Nat → List Char → List Char
  | _, [] => []
  | call, _ :: rest =>
      random_choice call character_set :: randomize random_choice character_set (call + 1) rest

/-- The function `generate_password(size, lowercase, uppercase, numbers, special)`,
lines 68-105. `size` is a `size_t`. `max_size` stands for `std::string::max_size()`, a
constant of the standard library that the sources do not fix and that is below `SIZE_MAX`,
and `allocatable` for the largest number of characters the run can still allocate:
`password.resize(size)` (line 93) throws `std::length_error` for a size above the first and
`std::bad_alloc` for a size above the second, and then no password is returned. -/
def generate_password (max_size allocatable : Nat) (random_choice : Nat → List Char → Char)
    (size : Nat) (lowercase uppercase numbers special : Bool) :
    Except resize_error (List Char) :=
  let character_set : List Char := []
  let character_set :=
    if lowercase then mtl.string.join character_set lowercase_characters else character_set
  let character_set :=
    if uppercase then mtl.string.join character_set uppercase_characters else character_set
  let character_set :=
    if numbers then mtl.string.join character_set numeric_characters else character_set
  let character_set :=
    if special then mtl.string.join character_set special_characters else character_set
  if size > max_size then
    .error .length_error
  else if size > allocatable then
    .error .bad_alloc
  else
    let password : List Char := List.replicate size (Char.ofNat 0)
    .ok (randomize random_choice character_set 0 password)

/-- The selected character set in the words of the claim: the alphabets whose flag is true,
one after the other in the order lowercase, uppercase, numeric, special. -/
def selected_character_set (lowercase uppercase numbers special : Bool) : List Char :=
  (if lowercase then lowercase_characters else []) ++
  (if uppercase then uppercase_characters else []) ++
  (if numbers then numeric_characters else []) ++
  (if special then special_characters else [])

/-- The colors handed to `mtl::console::print_color`. -/
inductive color
  | green
  | yellow
  | red
  deriving DecidableEq

/-- One call of a console function. -/
inductive console_write
  /-- the call `mtl::console::print(text)` -/
  | print (text : String)
  /-- the call `mtl::console::print_color(text, foreground)` -/
  | print_color (text : String) (foreground : color)
  /-- the call `mtl::console::println()` or `mtl::console::println(text)` -/
  | println (text : String)
  deriving DecidableEq

/-- The function `rate_password_strength(password_length, lowercase, uppercase, numbers,
special)`, lines 109-131, as the console calls it makes. -/
def rate_password_strength (password_length : Nat)
    (lowercase uppercase numbers special : Bool) : List console_write :=
  [.print "\nGenerated passwords strength : "] ++
  (if password_length > 10 ∧ lowercase ∧ uppercase ∧ numbers ∧ special then
    [.print_color "[STRONG]" .green]
  else if password_length ≥ 8 ∧ password_length ≤ 10 ∧ lowercase ∧ uppercase ∧
      numbers ∧ special then
    [.print_color "[MEDIUM]" .yellow]
  else
    [.print_color "[WEAK]" .red]) ++
  [.println ""]

/-- The input loop of `main`, lines 143-186, over the lines that `std::getline` still has
to deliver: the console calls made and the `password_length` the loop exits with. When the
input is used up no line can ever be accepted and the loop does not exit: `none`. -/
def read_password_length : List (List Char) → List console_write × Option Int
  | [] => ([], none)
  | line :: rest =>
      let user_input := mtl.string.strip line
      match to_num user_input with
      | .ok password_length =>
          if password_length < 6 then
            let next := read_password_length rest
            (.println "Password length is too small. Select a number above 5." :: next.1,
              next.2)
          else if password_length > 20 then
            let next := read_password_length rest
            (.println "Password length is too big. Select a number below 21." :: next.1,
              next.2)
          else
            ([], some password_length)
      | .error _ =>
          let next := read_password_length rest
          (.print "Incorrect value. Not a number. Please type an integer number " ::
            .println "between 6 and 20." :: next.1, next.2)

end password_generator

/-- The sort key of a date string: the key of its parsed triple (of the triple of zeros
when the string is not well-formed). -/
def date_key (date : List Char) : ℤ ×ₗ ℤ ×ₗ ℤ :=
  ((parsed_date date).getD ⟨0, 0, 0⟩).key

/-! Helper lemmas -/

theorem in_int_range_error_origin {number : Int} {e : Failure}
    (h : in_int_range number = .error e) : e = .invalid_argument .to_num_failed := by
  unfold in_int_range at h
  split at h <;> cases h
  rfl

theorem to_num_error_origin {field : List Char} {e : Failure} (h : to_num field = .error e) :
    e = .invalid_argument .to_num_failed := by
  unfold to_num at h
  split at h
  · cases h; rfl
  · split at h
    · cases h; rfl
    · split at h
      · exact in_int_range_error_origin h
      · cases h; rfl
  · split at h
    · exact in_int_range_error_origin h
    · cases h; rfl

theorem to_num_ok_or_error (field : List Char) :
    (∃ n, to_num field = .ok n) ∨ to_num field = .error (.invalid_argument .to_num_failed) := by
  cases h : to_num field with
  | ok n => exact Or.inl ⟨n, rfl⟩
  | error e => rw [to_num_error_origin h]; exact Or.inr rfl

theorem integer_parseable_iff (field : List Char) :
    integer_parseable field ↔ ∃ n, to_num field = .ok n := by
  unfold integer_parseable
  cases h : to_num field with
  | ok n => simp [Except.isOk, Except.toBool]
  | error e => simp [Except.isOk, Except.toBool]

theorem date_comparator_bad_count {a b : List Char}
    (h : (fields a).length ≠ 3 ∨ (fields b).length ≠ 3) :
    date_comparator a b = .error (.invalid_argument .incorrectly_formatted) := by
  unfold date_comparator
  simp only [fields] at h
  simp only [h, ↓reduceIte]
  rfl

theorem date_comparator_of_fields {a b d₁ m₁ y₁ d₂ m₂ y₂ : List Char}
    (ha : fields a = [d₁, m₁, y₁]) (hb : fields b = [d₂, m₂, y₂]) :
    date_comparator a b =
      (do
        let day_rhs ← to_num d₁
        let month_rhs ← to_num m₁
        let year_rhs ← to_num y₁
        let day_lhs ← to_num d₂
        let month_lhs ← to_num m₂
        let year_lhs ← to_num y₂
        pure (decide (year_rhs < year_lhs ∨ (year_rhs = year_lhs ∧
          (month_rhs < month_lhs ∨ (month_rhs = month_lhs ∧ day_rhs < day_lhs)))))) := by
  unfold date_comparator
  simp only [fields] at ha hb
  simp only [ha, hb, at_index]
  simp only [List.length_cons, List.length_nil, Nat.reduceAdd, ne_eq, not_true_eq_false,
    or_self, ↓reduceIte, List.get?, bind, Except.bind, pure, Except.pure]
  generalize to_num d₁ = r₁
  generalize to_num m₁ = r₂
  generalize to_num y₁ = r₃
  generalize to_num d₂ = r₄
  generalize to_num m₂ = r₅
  generalize to_num y₂ = r₆
  rcases r₁ with _ | day_rhs
  · rfl
  rcases r₂ with _ | month_rhs
  · rfl
  rcases r₃ with _ | year_rhs
  · rfl
  rcases r₄ with _ | day_lhs
  · rfl
  rcases r₅ with _ | month_lhs
  · rfl
  rcases r₆ with _ | year_lhs
  · rfl
  simp only
  split_ifs <;> simp <;> omega

theorem parsed_date_eq_some {a : List Char} {p : ParsedDate} (h : parsed_date a = some p) :
    ∃ d m y, fields a = [d, m, y] ∧ to_num d = .ok p.day ∧ to_num m = .ok p.month ∧
      to_num y = .ok p.year := by
  unfold parsed_date at h
  split at h
  · rename_i d m y hf
    split at h
    · rename_i day month year hd hm hy
      cases h
      exact ⟨d, m, y, hf, hd, hm, hy⟩
    · cases h
  · cases h

theorem well_formed_iff_parsed (a : List Char) :
    well_formed a ↔ ∃ p, parsed_date a = some p := by
  constructor
  · rintro ⟨hlen, hall⟩
    obtain ⟨d, m, y, hf⟩ := List.length_eq_three.mp hlen
    have hd := (integer_parseable_iff d).mp (hall d (by simp [hf]))
    have hm := (integer_parseable_iff m).mp (hall m (by simp [hf]))
    have hy := (integer_parseable_iff y).mp (hall y (by simp [hf]))
    obtain ⟨day, hd⟩ := hd
    obtain ⟨month, hm⟩ := hm
    obtain ⟨year, hy⟩ := hy
    exact ⟨⟨day, month, year⟩, by simp [parsed_date, hf, hd, hm, hy]⟩
  · rintro ⟨p, hp⟩
    obtain ⟨d, m, y, hf, hd, hm, hy⟩ := parsed_date_eq_some hp
    refine ⟨by simp [hf], ?_⟩
    intro field hfield
    rw [hf] at hfield
    simp only [List.mem_cons, List.mem_singleton, List.not_mem_nil, or_false] at hfield
    rw [integer_parseable_iff]
    rcases hfield with rfl | rfl | rfl
    · exact ⟨_, hd⟩
    · exact ⟨_, hm⟩
    · exact ⟨_, hy⟩

theorem key_lt_iff (p q : ParsedDate) :
    p.key < q.key ↔ (p.year < q.year ∨ (p.year = q.year ∧
      (p.month < q.month ∨ (p.month = q.month ∧ p.day < q.day)))) := by
  simp [ParsedDate.key, Prod.Lex.lt_iff]

theorem key_eq_iff (p q : ParsedDate) : p.key = q.key ↔ p = q := by
  cases p; cases q
  simp [ParsedDate.key]
  tauto

theorem date_comparator_of_parsed {a b : List Char} {pa pb : ParsedDate}
    (ha : parsed_date a = some pa) (hb : parsed_date b = some pb) :
    date_comparator a b = .ok (decide (pa.key < pb.key)) := by
  obtain ⟨d₁, m₁, y₁, hfa, hd₁, hm₁, hy₁⟩ := parsed_date_eq_some ha
  obtain ⟨d₂, m₂, y₂, hfb, hd₂, hm₂, hy₂⟩ := parsed_date_eq_some hb
  rw [date_comparator_of_fields hfa hfb, hd₁, hm₁, hy₁, hd₂, hm₂, hy₂]
  simp only [bind, Except.bind, pure, Except.pure, key_lt_iff]

theorem insert_sorted_spec {α ε L : Type} [LinearOrder L] (k : α → L)
    (comp : α → α → Except ε Bool) (value : α) (l : List α)
    (hcomp : ∀ x ∈ l, comp x value = .ok (decide (k x < k value)))
    (hs : l.Pairwise (fun x y => k x ≤ k y)) :
    ∃ out, insert_sorted comp value l = .ok out ∧ out.Perm (value :: l) ∧
      out.Pairwise (fun x y => k x ≤ k y) := by
  induction l with
  | nil => exact ⟨[value], rfl, List.Perm.refl _, by simp⟩
  | cons first rest ih =>
    have hfirst := hcomp first (List.mem_cons_self _ _)
    rw [List.pairwise_cons] at hs
    by_cases hlt : k first < k value
    · obtain ⟨out, hout, hperm, hsorted⟩ :=
        ih (fun x hx => hcomp x (List.mem_cons_of_mem _ hx)) hs.2
      refine ⟨first :: out, ?_, ?_, ?_⟩
      · simp [insert_sorted, hfirst, hlt, hout, bind, Except.bind, pure, Except.pure]
      · exact (hperm.cons first).trans (List.Perm.swap value first rest)
      · rw [List.pairwise_cons]
        refine ⟨?_, hsorted⟩
        intro y hy
        rcases List.mem_cons.mp (hperm.mem_iff.mp hy) with rfl | hy
        · exact le_of_lt hlt
        · exact hs.1 y hy
    · refine ⟨value :: first :: rest, ?_, List.Perm.refl _, ?_⟩
      · simp [insert_sorted, hfirst, hlt, bind, Except.bind, pure, Except.pure]
      · have hle : k value ≤ k first := not_lt.mp hlt
        rw [List.pairwise_cons]
        refine ⟨?_, List.pairwise_cons.mpr hs⟩
        intro y hy
        rcases List.mem_cons.mp hy with rfl | hy
        · exact hle
        · exact le_trans hle (hs.1 y hy)

theorem sort_spec {α ε L : Type} [LinearOrder L] (k : α → L)
    (comp : α → α → Except ε Bool) (l : List α)
    (hcomp : ∀ x ∈ l, ∀ y ∈ l, comp x y = .ok (decide (k x < k y))) :
    ∃ out, std.sort comp l = .ok out ∧ out.Perm l ∧ out.Pairwise (fun x y => k x ≤ k y) := by
  induction l with
  | nil => exact ⟨[], rfl, List.Perm.refl _, List.Pairwise.nil⟩
  | cons value rest ih =>
    obtain ⟨mid, hmid, hperm, hsorted⟩ :=
      ih (fun x hx y hy => hcomp x (List.mem_cons_of_mem _ hx) y (List.mem_cons_of_mem _ hy))
    obtain ⟨out, hout, hperm', hsorted'⟩ := insert_sorted_spec k comp value mid
      (fun x hx => hcomp x (List.mem_cons_of_mem _ (hperm.mem_iff.mp hx)) value
        (List.mem_cons_self _ _)) hsorted
    refine ⟨out, ?_, hperm'.trans (hperm.cons value), hsorted'⟩
    simp [std.sort, hmid, hout, bind, Except.bind]

theorem parse_digits_isSome_iff (digits : List Char) (acc : Nat) :
    (∃ n, parse_digits digits acc = some n) ↔ ∀ c ∈ digits, c.isDigit = true := by
  induction digits generalizing acc with
  | nil => simp [parse_digits]
  | cons c cs ih =>
    by_cases hc : c.isDigit = true
    · simp [parse_digits, digit_value, hc, ih]
    · simp [parse_digits, digit_value, hc]

theorem valid_integer_literal_minus (digits : List Char) :
    valid_integer_literal ('-' :: digits) ↔ digits ≠ [] ∧ ∀ c ∈ digits, c.isDigit = true :=
  Iff.rfl

theorem valid_integer_literal_unsigned (field : List Char)
    (h : ∀ digits, field ≠ '-' :: digits) :
    valid_integer_literal field ↔ field ≠ [] ∧ ∀ c ∈ field, c.isDigit = true := by
  unfold valid_integer_literal
  split
  · exact absurd rfl (h _)
  · exact Iff.rfl

theorem to_num_minus (digits : List Char) :
    to_num ('-' :: digits) =
      if digits = [] then .error (.invalid_argument .to_num_failed)
      else
        match parse_digits digits 0 with
        | some n => in_int_range (-(n : Int))
        | none => .error (.invalid_argument .to_num_failed) := rfl

theorem to_num_unsigned (field : List Char) (hne : field ≠ [])
    (h : ∀ digits, field ≠ '-' :: digits) :
    to_num field =
      match parse_digits field 0 with
      | some n => in_int_range (n : Int)
      | none => .error (.invalid_argument .to_num_failed) := by
  unfold to_num
  split
  · exact absurd rfl hne
  · exact absurd rfl (h _)
  · rfl

theorem valid_of_to_num_ok (field : List Char) (hok : ∃ n, to_num field = .ok n) :
    valid_integer_literal field := by
  obtain ⟨value, hvalue⟩ := hok
  by_cases hminus : ∃ digits, field = '-' :: digits
  · obtain ⟨digits, rfl⟩ := hminus
    rw [valid_integer_literal_minus, ← parse_digits_isSome_iff digits 0]
    rw [to_num_minus] at hvalue
    by_cases hd : digits = []
    · simp [hd] at hvalue
    · cases hp : parse_digits digits 0 with
      | none => simp [hd, hp] at hvalue
      | some n => exact ⟨hd, n, rfl⟩
  · have hminus' : ∀ digits, field ≠ '-' :: digits := fun digits h => hminus ⟨digits, h⟩
    rw [valid_integer_literal_unsigned field hminus', ← parse_digits_isSome_iff field 0]
    by_cases hne : field = []
    · subst hne
      simp [to_num] at hvalue
    · rw [to_num_unsigned field hne hminus'] at hvalue
      cases hp : parse_digits field 0 with
      | none => simp [hp] at hvalue
      | some n => exact ⟨hne, n, rfl⟩

theorem to_num_error_of_not_valid (field : List Char) (h : ¬ valid_integer_literal field) :
    to_num field = .error (.invalid_argument .to_num_failed) := by
  rcases to_num_ok_or_error field with hok | herr
  · exact absurd (valid_of_to_num_ok field hok) h
  · exact herr

/-! The is-before relation on well-formed dates -/

/-- C1: for well-formed date strings `a` and `b`, with parsed triples `pa` and `pb`,
`date_comparator a b` returns a boolean, and it returns `true` exactly when
`(year, month, day)` of `a` is strictly below that of `b` in the lexicographic order: the
year decides first, the month only when the years are equal, the day only when years and
months are equal. -/
theorem date_comparator_true_iff_lex_lt (a b : List Char)
    (ha : well_formed a) (hb : well_formed b) :
    ∃ pa pb, parsed_date a = some pa ∧ parsed_date b = some pb ∧
      (date_comparator a b = .ok true ↔ pa.key < pb.key) ∧
      (date_comparator a b = .ok false ↔ ¬ pa.key < pb.key) ∧
      (pa.key < pb.key ↔ (pa.year < pb.year ∨ (pa.year = pb.year ∧
        (pa.month < pb.month ∨ (pa.month = pb.month ∧ pa.day < pb.day))))) := by
  obtain ⟨pa, hpa⟩ := (well_formed_iff_parsed a).mp ha
  obtain ⟨pb, hpb⟩ := (well_formed_iff_parsed b).mp hb
  refine ⟨pa, pb, hpa, hpb, ?_, ?_, key_lt_iff pa pb⟩
  · rw [date_comparator_of_parsed hpa hpb]; simp
  · rw [date_comparator_of_parsed hpa hpb]; simp

theorem date_comparator_true_iff_lex_lt_witness :
    well_formed "02-05-2020".toList ∧ well_formed "04.05.2020".toList ∧
    ∃ pa pb, parsed_date "02-05-2020".toList = some pa ∧
      parsed_date "04.05.2020".toList = some pb ∧
      (date_comparator "02-05-2020".toList "04.05.2020".toList = .ok true ↔ pa.key < pb.key) ∧
      (date_comparator "02-05-2020".toList "04.05.2020".toList = .ok false ↔
        ¬ pa.key < pb.key) ∧
      (pa.key < pb.key ↔ (pa.year < pb.year ∨ (pa.year = pb.year ∧
        (pa.month < pb.month ∨ (pa.month = pb.month ∧ pa.day < pb.day))))) :=
  ⟨by decide, by decide,
    date_comparator_true_iff_lex_lt "02-05-2020".toList "04.05.2020".toList
      (by decide) (by decide)⟩

/-- C3: `date_comparator a b` returns a boolean exactly when both `a` and `b` are
well-formed (three fields after normalization, each integer-parseable); in every other case
it ends with a `std::invalid_argument`. -/
theorem date_comparator_returns_iff_well_formed (a b : List Char) :
    ((∃ r, date_comparator a b = .ok r) ↔ (well_formed a ∧ well_formed b)) ∧
    (¬ (well_formed a ∧ well_formed b) →
      ∃ origin, date_comparator a b = .error (.invalid_argument origin)) := by
  by_cases hlen : (fields a).length ≠ 3 ∨ (fields b).length ≠ 3
  · have herr := date_comparator_bad_count hlen
    have hnot : ¬ (well_formed a ∧ well_formed b) := by
      rintro ⟨hwa, hwb⟩
      rcases hlen with h | h
      · exact h hwa.1
      · exact h hwb.1
    refine ⟨?_, fun _ => ⟨_, herr⟩⟩
    simp [herr, hnot]
  · push_neg at hlen
    obtain ⟨d₁, m₁, y₁, hfa⟩ := List.length_eq_three.mp hlen.1
    obtain ⟨d₂, m₂, y₂, hfb⟩ := List.length_eq_three.mp hlen.2
    have hwa : well_formed a ↔
        (∃ n, to_num d₁ = .ok n) ∧ (∃ n, to_num m₁ = .ok n) ∧ (∃ n, to_num y₁ = .ok n) := by
      simp [well_formed, hfa, integer_parseable_iff]
    have hwb : well_formed b ↔
        (∃ n, to_num d₂ = .ok n) ∧ (∃ n, to_num m₂ = .ok n) ∧ (∃ n, to_num y₂ = .ok n) := by
      simp [well_formed, hfb, integer_parseable_iff]
    rw [hwa, hwb, date_comparator_of_fields hfa hfb]
    rcases to_num_ok_or_error d₁ with ⟨n₁, h₁⟩ | h₁ <;>
    rcases to_num_ok_or_error m₁ with ⟨n₂, h₂⟩ | h₂ <;>
    rcases to_num_ok_or_error y₁ with ⟨n₃, h₃⟩ | h₃ <;>
    rcases to_num_ok_or_error d₂ with ⟨n₄, h₄⟩ | h₄ <;>
    rcases to_num_ok_or_error m₂ with ⟨n₅, h₅⟩ | h₅ <;>
    rcases to_num_ok_or_error y₂ with ⟨n₆, h₆⟩ | h₆ <;>
    simp [h₁, h₂, h₃, h₄, h₅, h₆, bind, Except.bind, pure, Except.pure]

/-- C4: the is-before relation is irreflexive: for every well-formed date string `a`,
`date_comparator a a` returns `false`. -/
theorem date_comparator_irreflexive (a : List Char) (ha : well_formed a) :
    date_comparator a a = .ok false := by
  obtain ⟨pa, hpa⟩ := (well_formed_iff_parsed a).mp ha
  rw [date_comparator_of_parsed hpa hpa]
  simp

theorem date_comparator_irreflexive_witness :
    well_formed "04.05.2020".toList ∧
    date_comparator "04.05.2020".toList "04.05.2020".toList = .ok false :=
  ⟨by decide, date_comparator_irreflexive "04.05.2020".toList (by decide)⟩

/-- C5: the is-before relation is asymmetric: for well-formed date strings `a` and `b`, if
`date_comparator a b` returns `true` then `date_comparator b a` returns `false`. -/
theorem date_comparator_asymmetric (a b : List Char)
    (ha : well_formed a) (hb : well_formed b)
    (hab : date_comparator a b = .ok true) : date_comparator b a = .ok false := by
  obtain ⟨pa, hpa⟩ := (well_formed_iff_parsed a).mp ha
  obtain ⟨pb, hpb⟩ := (well_formed_iff_parsed b).mp hb
  rw [date_comparator_of_parsed hpa hpb] at hab
  rw [date_comparator_of_parsed hpb hpa]
  have hlt : pa.key < pb.key := by simpa using hab
  simp [not_lt.mpr (le_of_lt hlt)]

theorem date_comparator_asymmetric_witness :
    well_formed "02-05-2020".toList ∧ well_formed "04.05.2020".toList ∧
    date_comparator "02-05-2020".toList "04.05.2020".toList = .ok true ∧
    date_comparator "04.05.2020".toList "02-05-2020".toList = .ok false :=
  ⟨by decide, by decide, by decide,
    date_comparator_asymmetric "02-05-2020".toList "04.05.2020".toList
      (by decide) (by decide) (by decide)⟩

/-- C6: the is-before relation is transitive: for well-formed date strings `a`, `b`, `c`,
if `date_comparator a b` and `date_comparator b c` both return `true` then
`date_comparator a c` returns `true`. -/
theorem date_comparator_transitive (a b c : List Char)
    (ha : well_formed a) (hb : well_formed b) (hc : well_formed c)
    (hab : date_comparator a b = .ok true) (hbc : date_comparator b c = .ok true) :
    date_comparator a c = .ok true := by
  obtain ⟨pa, hpa⟩ := (well_formed_iff_parsed a).mp ha
  obtain ⟨pb, hpb⟩ := (well_formed_iff_parsed b).mp hb
  obtain ⟨pc, hpc⟩ := (well_formed_iff_parsed c).mp hc
  rw [date_comparator_of_parsed hpa hpb] at hab
  rw [date_comparator_of_parsed hpb hpc] at hbc
  rw [date_comparator_of_parsed hpa hpc]
  have h₁ : pa.key < pb.key := by simpa using hab
  have h₂ : pb.key < pc.key := by simpa using hbc
  simp [lt_trans h₁ h₂]

theorem date_comparator_transitive_witness :
    well_formed "04/07/2018".toList ∧ well_formed "09.04.2019".toList ∧
    well_formed "02-05-2020".toList ∧
    date_comparator "04/07/2018".toList "09.04.2019".toList = .ok true ∧
    date_comparator "09.04.2019".toList "02-05-2020".toList = .ok true ∧
    date_comparator "04/07/2018".toList "02-05-2020".toList = .ok true :=
  ⟨by decide, by decide, by decide, by decide, by decide,
    date_comparator_transitive "04/07/2018".toList "09.04.2019".toList "02-05-2020".toList
      (by decide) (by decide) (by decide) (by decide) (by decide)⟩

/-- C7: for well-formed date strings, `date_comparator a b` and `date_comparator b a` are
both `false` exactly when `a` and `b` parse to the same `(day, month, year)` triple; hence
"neither is before the other" is reflexive, symmetric and transitive, an equivalence
relation on well-formed dates. -/
theorem equivalent_in_ordering_iff_same_triple (a b c : List Char)
    (ha : well_formed a) (hb : well_formed b) (hc : well_formed c) :
    (equivalent_in_ordering a b ↔ parsed_date a = parsed_date b) ∧
    equivalent_in_ordering a a ∧
    (equivalent_in_ordering a b → equivalent_in_ordering b a) ∧
    (equivalent_in_ordering a b → equivalent_in_ordering b c → equivalent_in_ordering a c) := by
  obtain ⟨pa, hpa⟩ := (well_formed_iff_parsed a).mp ha
  obtain ⟨pb, hpb⟩ := (well_formed_iff_parsed b).mp hb
  obtain ⟨pc, hpc⟩ := (well_formed_iff_parsed c).mp hc
  have key : ∀ {x y : List Char} {px py : ParsedDate}, parsed_date x = some px →
      parsed_date y = some py → (equivalent_in_ordering x y ↔ px = py) := by
    intro x y px py hx hy
    unfold equivalent_in_ordering
    rw [date_comparator_of_parsed hx hy, date_comparator_of_parsed hy hx, ← key_eq_iff]
    simp only [Except.ok.injEq, decide_eq_false_iff_not, not_lt]
    exact ⟨fun h => le_antisymm h.2 h.1, fun h => ⟨ge_of_eq h, le_of_eq h⟩⟩
  refine ⟨?_, (key hpa hpa).mpr rfl, ?_, ?_⟩
  · rw [key hpa hpb, hpa, hpb, Option.some.injEq]
  · exact fun h => ⟨h.2, h.1⟩
  · intro hab hbc
    exact (key hpa hpc).mpr (((key hpa hpb).mp hab).trans ((key hpb hpc).mp hbc))

theorem equivalent_in_ordering_iff_same_triple_witness :
    well_formed "04.05.2020".toList ∧ well_formed "04-05-2020".toList ∧
    well_formed "04/05/2020".toList ∧
    (equivalent_in_ordering "04.05.2020".toList "04-05-2020".toList ↔
      parsed_date "04.05.2020".toList = parsed_date "04-05-2020".toList) ∧
    equivalent_in_ordering "04.05.2020".toList "04.05.2020".toList ∧
    (equivalent_in_ordering "04.05.2020".toList "04-05-2020".toList →
      equivalent_in_ordering "04-05-2020".toList "04.05.2020".toList) ∧
    (equivalent_in_ordering "04.05.2020".toList "04-05-2020".toList →
      equivalent_in_ordering "04-05-2020".toList "04/05/2020".toList →
      equivalent_in_ordering "04.05.2020".toList "04/05/2020".toList) :=
  ⟨by decide, by decide, by decide,
    equivalent_in_ordering_iff_same_triple "04.05.2020".toList "04-05-2020".toList
      "04/05/2020".toList (by decide) (by decide) (by decide)⟩

/-! Separator independence and malformed input -/

/-- C8: separator independence. If `a` and `a'` become the same string once every `-` and
`.` is replaced by `/`, then `date_comparator` has the same outcome (same boolean or same
exception) with `a` as with `a'`, in the first and in the second argument; and
"04.05.2020", "04-05-2020", "04/05/2020" compare pairwise as not-before in both
directions. -/
theorem date_comparator_separator_independent (a a' b : List Char)
    (h : normalized a = normalized a') :
    (date_comparator a b = date_comparator a' b ∧
      date_comparator b a = date_comparator b a') ∧
    (equivalent_in_ordering "04.05.2020".toList "04-05-2020".toList ∧
      equivalent_in_ordering "04.05.2020".toList "04/05/2020".toList ∧
      equivalent_in_ordering "04-05-2020".toList "04/05/2020".toList) := by
  refine ⟨⟨?_, ?_⟩, by decide, by decide, by decide⟩
  · unfold date_comparator
    rw [h]
  · unfold date_comparator
    rw [h]

theorem date_comparator_separator_independent_witness :
    normalized "04.05.2020".toList = normalized "04-05-2020".toList ∧
    ((date_comparator "04.05.2020".toList "03/05/2020".toList =
        date_comparator "04-05-2020".toList "03/05/2020".toList ∧
      date_comparator "03/05/2020".toList "04.05.2020".toList =
        date_comparator "03/05/2020".toList "04-05-2020".toList) ∧
    (equivalent_in_ordering "04.05.2020".toList "04-05-2020".toList ∧
      equivalent_in_ordering "04.05.2020".toList "04/05/2020".toList ∧
      equivalent_in_ordering "04-05-2020".toList "04/05/2020".toList)) :=
  ⟨by decide,
    date_comparator_separator_independent "04.05.2020".toList "04-05-2020".toList
      "03/05/2020".toList (by decide)⟩

/-- C9: if the normalized form of `a` or of `b` splits on `/` into a number of fields other
than 3, `date_comparator a b` throws `std::invalid_argument` (the one of line 48), whatever
the other argument is; "2020/05", with two fields, is rejected in either position. -/
theorem date_comparator_rejects_field_count (a b : List Char)
    (h : (fields a).length ≠ 3 ∨ (fields b).length ≠ 3) :
    date_comparator a b = .error (.invalid_argument .incorrectly_formatted) ∧
    (fields "2020/05".toList).length = 2 ∧
    ∀ other : List Char,
      date_comparator "2020/05".toList other =
        .error (.invalid_argument .incorrectly_formatted) ∧
      date_comparator other "2020/05".toList =
        .error (.invalid_argument .incorrectly_formatted) := by
  refine ⟨date_comparator_bad_count h, by decide, fun other => ⟨?_, ?_⟩⟩
  · exact date_comparator_bad_count (Or.inl (by decide))
  · exact date_comparator_bad_count (Or.inr (by decide))

theorem date_comparator_rejects_field_count_witness :
    ((fields "2020/05".toList).length ≠ 3 ∨ (fields "04.05.2020".toList).length ≠ 3) ∧
    (date_comparator "2020/05".toList "04.05.2020".toList =
      .error (.invalid_argument .incorrectly_formatted) ∧
    (fields "2020/05".toList).length = 2 ∧
    ∀ other : List Char,
      date_comparator "2020/05".toList other =
        .error (.invalid_argument .incorrectly_formatted) ∧
      date_comparator other "2020/05".toList =
        .error (.invalid_argument .incorrectly_formatted)) :=
  ⟨by decide,
    date_comparator_rejects_field_count "2020/05".toList "04.05.2020".toList (by decide)⟩

/-- C10: when both `a` and `b` have exactly three fields after normalization and one of the
six fields is not a valid integer literal, `date_comparator a b` throws the
`std::invalid_argument` of `mtl::to_num`; "05/ab/2020" is rejected in either argument
position, also when the other date is well-formed. -/
theorem date_comparator_rejects_non_integer_field (a b : List Char)
    (ha : (fields a).length = 3) (hb : (fields b).length = 3)
    (h : ∃ field ∈ fields a ++ fields b, ¬ valid_integer_literal field) :
    date_comparator a b = .error (.invalid_argument .to_num_failed) ∧
    (fields "05/ab/2020".toList = ["05".toList, "ab".toList, "2020".toList] ∧
      ¬ valid_integer_literal "ab".toList) ∧
    ∀ other : List Char,
      (∃ origin, date_comparator "05/ab/2020".toList other =
        .error (.invalid_argument origin)) ∧
      (∃ origin, date_comparator other "05/ab/2020".toList =
        .error (.invalid_argument origin)) ∧
      (well_formed other →
        date_comparator "05/ab/2020".toList other =
          .error (.invalid_argument .to_num_failed) ∧
        date_comparator other "05/ab/2020".toList =
          .error (.invalid_argument .to_num_failed)) := by
  have general : ∀ x y : List Char, (fields x).length = 3 → (fields y).length = 3 →
      (∃ field ∈ fields x ++ fields y, ¬ valid_integer_literal field) →
      date_comparator x y = .error (.invalid_argument .to_num_failed) := by
    intro x y hx hy hbad
    obtain ⟨d₁, m₁, y₁, hfx⟩ := List.length_eq_three.mp hx
    obtain ⟨d₂, m₂, y₂, hfy⟩ := List.length_eq_three.mp hy
    obtain ⟨field, hmem, hnot⟩ := hbad
    have herr := to_num_error_of_not_valid field hnot
    rw [hfx, hfy] at hmem
    simp only [List.cons_append, List.nil_append, List.mem_cons, List.mem_singleton,
      List.not_mem_nil, or_false] at hmem
    rw [date_comparator_of_fields hfx hfy]
    rcases to_num_ok_or_error d₁ with ⟨n₁, h₁⟩ | h₁ <;>
    rcases to_num_ok_or_error m₁ with ⟨n₂, h₂⟩ | h₂ <;>
    rcases to_num_ok_or_error y₁ with ⟨n₃, h₃⟩ | h₃ <;>
    rcases to_num_ok_or_error d₂ with ⟨n₄, h₄⟩ | h₄ <;>
    rcases to_num_ok_or_error m₂ with ⟨n₅, h₅⟩ | h₅ <;>
    rcases to_num_ok_or_error y₂ with ⟨n₆, h₆⟩ | h₆ <;>
    (simp only [h₁, h₂, h₃, h₄, h₅, h₆, bind, Except.bind]
     first
       | done
       | (rcases hmem with rfl | rfl | rfl | rfl | rfl | rfl <;> simp_all))
  have hbad : (fields "05/ab/2020".toList).length = 3 ∧
      ∃ field ∈ fields "05/ab/2020".toList, ¬ valid_integer_literal field :=
    ⟨by decide, "ab".toList, by decide, by decide⟩
  refine ⟨general a b ha hb h, ⟨by decide, by decide⟩, fun other => ?_⟩
  obtain ⟨hlen, field, hmem, hnot⟩ := hbad
  have hfirst : (fields other).length = 3 →
      date_comparator "05/ab/2020".toList other = .error (.invalid_argument .to_num_failed) :=
    fun ho => general _ _ hlen ho ⟨field, List.mem_append_left _ hmem, hnot⟩
  have hsecond : (fields other).length = 3 →
      date_comparator other "05/ab/2020".toList = .error (.invalid_argument .to_num_failed) :=
    fun ho => general _ _ ho hlen ⟨field, List.mem_append_right _ hmem, hnot⟩
  refine ⟨?_, ?_, fun hw => ⟨hfirst hw.1, hsecond hw.1⟩⟩
  · by_cases ho : (fields other).length = 3
    · exact ⟨_, hfirst ho⟩
    · exact ⟨_, date_comparator_bad_count (Or.inr ho)⟩
  · by_cases ho : (fields other).length = 3
    · exact ⟨_, hsecond ho⟩
    · exact ⟨_, date_comparator_bad_count (Or.inl ho)⟩

theorem date_comparator_rejects_non_integer_field_witness :
    (fields "05/ab/2020".toList).length = 3 ∧ (fields "04.05.2020".toList).length = 3 ∧
    (∃ field ∈ fields "05/ab/2020".toList ++ fields "04.05.2020".toList,
      ¬ valid_integer_literal field) ∧
    date_comparator "05/ab/2020".toList "04.05.2020".toList =
      .error (.invalid_argument .to_num_failed) :=
  ⟨by decide, by decide, ⟨"ab".toList, by decide, by decide⟩,
    (date_comparator_rejects_non_integer_field "05/ab/2020".toList "04.05.2020".toList
      (by decide) (by decide) ⟨"ab".toList, by decide, by decide⟩).1⟩

/-! Sorting with the comparator -/

/-- C2: sorting a list of well-formed date strings with `date_comparator` succeeds and
returns a permutation of the original strings whose parsed triples are in non-decreasing
lexicographic `(year, month, day)` order; for
`["04.05.2020", "02-05-2020", "05/11/2020", "03/05/2020"]` the result is
`["02-05-2020", "03/05/2020", "04.05.2020", "05/11/2020"]`, with triples
(2020,5,2), (2020,5,3), (2020,5,4), (2020,11,5). -/
theorem sort_dates_sorted_permutation (dates : List (List Char))
    (h : ∀ date ∈ dates, well_formed date) :
    (∃ (out : List (List Char)) (triples : List ParsedDate),
      sort_dates dates = .ok out ∧ out.Perm dates ∧
      out.map parsed_date = triples.map some ∧
      triples.Pairwise (fun p q => p.key ≤ q.key)) ∧
    sort_dates ["04.05.2020".toList, "02-05-2020".toList, "05/11/2020".toList,
        "03/05/2020".toList] =
      .ok ["02-05-2020".toList, "03/05/2020".toList, "04.05.2020".toList,
        "05/11/2020".toList] ∧
    ["02-05-2020".toList, "03/05/2020".toList, "04.05.2020".toList,
        "05/11/2020".toList].map parsed_date =
      [some ⟨2, 5, 2020⟩, some ⟨3, 5, 2020⟩, some ⟨4, 5, 2020⟩, some ⟨5, 11, 2020⟩] := by
  refine ⟨?_, by decide, by decide⟩
  let triple : List Char → ParsedDate := fun date => (parsed_date date).getD ⟨0, 0, 0⟩
  have htriple : ∀ date ∈ dates, parsed_date date = some (triple date) := by
    intro date hdate
    obtain ⟨p, hp⟩ := (well_formed_iff_parsed date).mp (h date hdate)
    simp [triple, hp]
  obtain ⟨out, hout, hperm, hsorted⟩ :=
    sort_spec (fun date => (triple date).key)
      (fun rhs lhs => date_comparator rhs lhs) dates
      (fun x hx y hy => date_comparator_of_parsed (htriple x hx) (htriple y hy))
  refine ⟨out, out.map triple, hout, hperm, ?_, ?_⟩
  · rw [List.map_map]
    exact List.map_congr_left (fun date hdate => htriple date (hperm.mem_iff.mp hdate))
  · exact List.pairwise_map.mpr hsorted

theorem sort_dates_sorted_permutation_witness :
    (∀ date ∈ ["04.05.2020".toList, "02-05-2020".toList, "05/11/2020".toList,
        "03/05/2020".toList], well_formed date) ∧
    ∃ (out : List (List Char)) (triples : List ParsedDate),
      sort_dates ["04.05.2020".toList, "02-05-2020".toList, "05/11/2020".toList,
        "03/05/2020".toList] = .ok out ∧
      out.Perm ["04.05.2020".toList, "02-05-2020".toList, "05/11/2020".toList,
        "03/05/2020".toList] ∧
      out.map parsed_date = triples.map some ∧
      triples.Pairwise (fun p q => p.key ≤ q.key) :=
  ⟨by decide,
    (sort_dates_sorted_permutation ["04.05.2020".toList, "02-05-2020".toList,
      "05/11/2020".toList, "03/05/2020".toList] (by decide)).1⟩

/-! Helper lemmas on normalization and splitting -/

theorem fields_eq_split_loop (date : List Char) :
    fields date = mtl.string.split_loop ['/'] 0 (normalized date) [] := rfl

theorem split_loop_single_cons (sep c : Char) (rest cur : List Char) :
    mtl.string.split_loop [sep] 0 (c :: rest) cur =
      if c = sep then cur.reverse :: mtl.string.split_loop [sep] 0 rest []
      else mtl.string.split_loop [sep] 0 rest (c :: cur) := by
  by_cases h : c = sep
  · subst h
    simp [mtl.string.split_loop, List.isPrefixOf]
  · have h' : ¬ sep = c := fun e => h e.symm
    simp [mtl.string.split_loop, List.isPrefixOf, h, h']

theorem split_loop_token (sep : Char) (token : List Char) (hfree : sep ∉ token)
    (rest cur : List Char) :
    mtl.string.split_loop [sep] 0 (token ++ rest) cur =
      mtl.string.split_loop [sep] 0 rest (token.reverse ++ cur) := by
  induction token generalizing cur with
  | nil => rfl
  | cons c cs ih =>
    have hc : c ≠ sep := fun e => hfree (by simp [e])
    have hcs : sep ∉ cs := fun hmem => hfree (List.mem_cons_of_mem _ hmem)
    rw [List.cons_append, split_loop_single_cons, if_neg hc, ih hcs]
    simp

theorem split_loop_three (sep : Char) (f₁ f₂ f₃ : List Char)
    (h₁ : sep ∉ f₁) (h₂ : sep ∉ f₂) (h₃ : sep ∉ f₃) :
    mtl.string.split_loop [sep] 0 (f₁ ++ sep :: (f₂ ++ sep :: f₃)) [] = [f₁, f₂, f₃] := by
  rw [split_loop_token sep f₁ h₁, split_loop_single_cons, if_pos rfl,
    split_loop_token sep f₂ h₂, split_loop_single_cons, if_pos rfl]
  have h := split_loop_token sep f₃ h₃ [] []
  rw [List.append_nil] at h
  rw [h]
  simp [mtl.string.split_loop]

theorem normalized_append (x y : List Char) :
    normalized (x ++ y) = normalized x ++ normalized y := by
  simp [normalized, mtl.string.replace]

theorem normalized_cons (c : Char) (x : List Char) :
    normalized (c :: x) = (if is_separator c then '/' else c) :: normalized x := by
  unfold is_separator
  by_cases h₁ : c = '-'
  · subst h₁; simp [normalized, mtl.string.replace]
  · by_cases h₂ : c = '.'
    · subst h₂; simp [normalized, mtl.string.replace]
    · by_cases h₃ : c = '/'
      · subst h₃; simp [normalized, mtl.string.replace]
      · simp [normalized, mtl.string.replace, h₁, h₂, h₃]

theorem normalized_separator_free (text : List Char) (h : separator_free text) :
    normalized text = text := by
  induction text with
  | nil => rfl
  | cons c cs ih =>
    have hc : ¬ is_separator c := h c (List.mem_cons_self _ _)
    rw [normalized_cons, if_neg hc, ih (fun x hx => h x (List.mem_cons_of_mem _ hx))]

theorem slash_not_mem_of_separator_free (text : List Char) (h : separator_free text) :
    '/' ∉ text := fun hmem => h '/' hmem (Or.inl rfl)

theorem fields_of_three (f₁ f₂ f₃ : List Char) (s₁ s₂ : Char)
    (h₁ : separator_free f₁) (h₂ : separator_free f₂) (h₃ : separator_free f₃)
    (hs₁ : is_separator s₁) (hs₂ : is_separator s₂) :
    fields (f₁ ++ s₁ :: (f₂ ++ s₂ :: f₃)) = [f₁, f₂, f₃] := by
  rw [fields_eq_split_loop, normalized_append, normalized_cons, normalized_append,
    normalized_cons, if_pos hs₁, if_pos hs₂, normalized_separator_free f₁ h₁,
    normalized_separator_free f₂ h₂, normalized_separator_free f₃ h₃]
  exact split_loop_three '/' f₁ f₂ f₃ (slash_not_mem_of_separator_free f₁ h₁)
    (slash_not_mem_of_separator_free f₂ h₂) (slash_not_mem_of_separator_free f₃ h₃)

theorem normalized_eq_map (text : List Char) :
    normalized text = text.map (fun c => if is_separator c then '/' else c) := by
  induction text with
  | nil => rfl
  | cons c cs ih => rw [normalized_cons, ih, List.map_cons]

theorem not_mem_normalized (text : List Char) (c : Char) (hc : is_separator c)
    (hslash : c ≠ '/') : c ∉ normalized text := by
  rw [normalized_eq_map]
  intro hmem
  obtain ⟨x, _, hx⟩ := List.mem_map.mp hmem
  by_cases hsep : is_separator x
  · rw [if_pos hsep] at hx
    exact hslash hx.symm
  · rw [if_neg hsep] at hx
    exact hsep (hx ▸ hc)

theorem parsed_date_of_fields {a d m y : List Char} {day month year : Int}
    (hf : fields a = [d, m, y]) (hd : to_num d = .ok day) (hm : to_num m = .ok month)
    (hy : to_num y = .ok year) : parsed_date a = some ⟨day, month, year⟩ := by
  simp [parsed_date, hf, hd, hm, hy]

theorem not_separator_of_isDigit {c : Char} (h : c.isDigit = true) : ¬ is_separator c := by
  rintro (rfl | rfl | rfl) <;> simp [Char.isDigit] at h

theorem separator_free_of_unsigned {field : List Char} (h : unsigned_integer_literal field) :
    separator_free field :=
  fun c hc => not_separator_of_isDigit (h.2 c hc)

theorem parse_digits_eq_foldl (digits : List Char) (acc : Nat)
    (h : ∀ c ∈ digits, c.isDigit = true) :
    parse_digits digits acc =
      some (digits.foldl (fun acc c => acc * 10 + (c.toNat - '0'.toNat)) acc) := by
  induction digits generalizing acc with
  | nil => rfl
  | cons c cs ih =>
    have hc : c.isDigit = true := h c (List.mem_cons_self _ _)
    simp only [parse_digits, digit_value, hc, if_true, List.foldl_cons]
    exact ih _ (fun x hx => h x (List.mem_cons_of_mem _ hx))

theorem to_num_of_unsigned {field : List Char} (h : unsigned_integer_literal field) :
    to_num field = in_int_range (decimal_value field : Int) := by
  have hminus : ∀ digits, field ≠ '-' :: digits := by
    rintro digits rfl
    have := h.2 '-' (List.mem_cons_self _ _)
    simp [Char.isDigit] at this
  rw [to_num_unsigned field h.1 hminus, parse_digits_eq_foldl field 0 h.2]
  rfl

theorem to_num_of_unsigned_in_range {field : List Char} (h : unsigned_integer_literal field)
    (hrange : (decimal_value field : Int) ≤ INT_MAX) :
    to_num field = .ok (decimal_value field : Int) := by
  rw [to_num_of_unsigned h]
  unfold in_int_range
  rw [if_pos]
  refine ⟨?_, hrange⟩
  have hmin : INT_MIN ≤ 0 := by decide
  exact le_trans hmin (Int.natCast_nonneg _)

theorem mem_split_loop_chars (delimiter : List Char) (skip : Nat) (value cur token : List Char)
    (htoken : token ∈ mtl.string.split_loop delimiter skip value cur) (c : Char)
    (hc : c ∈ token) : c ∈ value ∨ c ∈ cur := by
  induction value generalizing skip cur with
  | nil =>
    cases skip <;>
    · simp only [mtl.string.split_loop, List.mem_singleton] at htoken
      subst htoken
      exact Or.inr (List.mem_reverse.mp hc)
  | cons x rest ih =>
    cases skip with
    | succ skip =>
      simp only [mtl.string.split_loop] at htoken
      rcases ih skip cur htoken with h | h
      · exact Or.inl (List.mem_cons_of_mem _ h)
      · exact Or.inr h
    | zero =>
      simp only [mtl.string.split_loop] at htoken
      split at htoken
      · rcases List.mem_cons.mp htoken with h | h
        · subst h
          exact Or.inr (List.mem_reverse.mp hc)
        · rcases ih _ [] h with h' | h'
          · exact Or.inl (List.mem_cons_of_mem _ h')
          · simp at h'
      · rcases ih 0 (x :: cur) htoken with h | h
        · exact Or.inl (List.mem_cons_of_mem _ h)
        · rcases List.mem_cons.mp h with h' | h'
          · exact Or.inl (h' ▸ List.mem_cons_self _ _)
          · exact Or.inr h'

theorem mem_field_mem_normalized {date field : List Char} (hfield : field ∈ fields date)
    {c : Char} (hc : c ∈ field) : c ∈ normalized date := by
  rw [fields_eq_split_loop] at hfield
  rcases mem_split_loop_chars _ _ _ _ _ hfield c hc with h | h
  · exact h
  · simp at h

theorem split_loop_after_separator (sep : Char) (before after cur : List Char) :
    ∃ front, mtl.string.split_loop [sep] 0 (before ++ sep :: after) cur =
      front ++ mtl.string.split_loop [sep] 0 after [] := by
  induction before generalizing cur with
  | nil => exact ⟨[cur.reverse], by rw [List.nil_append, split_loop_single_cons, if_pos rfl]; rfl⟩
  | cons c cs ih =>
    rw [List.cons_append, split_loop_single_cons]
    by_cases h : c = sep
    · obtain ⟨front, hfront⟩ := ih []
      exact ⟨cur.reverse :: front, by rw [if_pos h, hfront]; rfl⟩
    · obtain ⟨front, hfront⟩ := ih (c :: cur)
      exact ⟨front, by rw [if_neg h, hfront]⟩

theorem empty_field_of_has_empty_field {date : List Char} (h : has_empty_field date) :
    [] ∈ fields date := by
  rw [fields_eq_split_loop]
  rcases h with ⟨before, after, s₁, s₂, hs₁, hs₂, rfl⟩ | ⟨after, s, hs, rfl⟩ |
    ⟨before, s, hs, rfl⟩
  · rw [normalized_append, normalized_cons, normalized_cons, if_pos hs₁, if_pos hs₂]
    obtain ⟨front, hfront⟩ :=
      split_loop_after_separator '/' (normalized before) ('/' :: normalized after) []
    rw [hfront, split_loop_single_cons, if_pos rfl]
    exact List.mem_append_right _ (List.mem_cons_self _ _)
  · rw [normalized_cons, if_pos hs, split_loop_single_cons, if_pos rfl]
    exact List.mem_cons_self _ _
  · rw [normalized_append, normalized_cons, if_pos hs]
    obtain ⟨front, hfront⟩ :=
      split_loop_after_separator '/' (normalized before) (normalized []) []
    rw [hfront]
    exact List.mem_append_right _ (by decide)

theorem date_comparator_to_num_failed {a b : List Char}
    (hla : (fields a).length = 3) (hlb : (fields b).length = 3)
    (h : ¬ (well_formed a ∧ well_formed b)) :
    date_comparator a b = .error (.invalid_argument .to_num_failed) := by
  · -- both splits have three parts: the first failing conversion decides
    obtain ⟨d₁, m₁, y₁, hfa⟩ := List.length_eq_three.mp hla
    obtain ⟨d₂, m₂, y₂, hfb⟩ := List.length_eq_three.mp hlb
    rw [date_comparator_of_fields hfa hfb]
    have hwf : ¬ (((∃ n, to_num d₁ = .ok n) ∧ (∃ n, to_num m₁ = .ok n) ∧
        (∃ n, to_num y₁ = .ok n)) ∧ ((∃ n, to_num d₂ = .ok n) ∧ (∃ n, to_num m₂ = .ok n) ∧
        (∃ n, to_num y₂ = .ok n))) := by
      intro hall
      apply h
      simp only [well_formed, hfa, hfb, integer_parseable_iff]
      simpa using hall
    rcases to_num_ok_or_error d₁ with ⟨n₁, h₁⟩ | h₁
    · rcases to_num_ok_or_error m₁ with ⟨n₂, h₂⟩ | h₂
      · rcases to_num_ok_or_error y₁ with ⟨n₃, h₃⟩ | h₃
        · rcases to_num_ok_or_error d₂ with ⟨n₄, h₄⟩ | h₄
          · rcases to_num_ok_or_error m₂ with ⟨n₅, h₅⟩ | h₅
            · rcases to_num_ok_or_error y₂ with ⟨n₆, h₆⟩ | h₆
              · exact absurd ⟨⟨⟨_, h₁⟩, ⟨_, h₂⟩, ⟨_, h₃⟩⟩, ⟨⟨_, h₄⟩, ⟨_, h₅⟩, ⟨_, h₆⟩⟩⟩ hwf
              · simp [h₁, h₂, h₃, h₄, h₅, h₆, bind, Except.bind]
            · simp [h₁, h₂, h₃, h₄, h₅, bind, Except.bind]
          · simp [h₁, h₂, h₃, h₄, bind, Except.bind]
        · simp [h₁, h₂, h₃, bind, Except.bind]
      · simp [h₁, h₂, bind, Except.bind]
    · simp [h₁, bind, Except.bind]

theorem date_comparator_error_of_not_well_formed {a b : List Char}
    (h : ¬ (well_formed a ∧ well_formed b)) :
    ∃ origin, date_comparator a b = .error (.invalid_argument origin) := by
  by_cases hlen : (fields a).length ≠ 3 ∨ (fields b).length ≠ 3
  · exact ⟨_, date_comparator_bad_count hlen⟩
  · push_neg at hlen
    exact ⟨_, date_comparator_to_num_failed hlen.1 hlen.2 h⟩

theorem not_well_formed_of_non_digit {date field : List Char} (hfield : field ∈ fields date)
    {c : Char} (hc : c ∈ field) (hdigit : c.isDigit = false) : ¬ well_formed date := by
  intro hw
  have hparse := (integer_parseable_iff field).mp (hw.2 field hfield)
  have hvalid := valid_of_to_num_ok field hparse
  have hminus : ∀ digits, field ≠ '-' :: digits := by
    rintro digits rfl
    exact not_mem_normalized date '-' (Or.inr (Or.inl rfl)) (by decide)
      (mem_field_mem_normalized hfield (List.mem_cons_self _ _))
  have hall := ((valid_integer_literal_unsigned field hminus).mp hvalid).2 c hc
  rw [hdigit] at hall
  exact Bool.false_ne_true hall

theorem not_well_formed_of_empty_field {date : List Char} (h : [] ∈ fields date) :
    ¬ well_formed date := by
  intro hw
  have := hw.2 [] h
  revert this
  decide

/-! Helper lemmas on the sort and on joining -/

theorem insert_sorted_error_of_head {α ε : Type} (comp : α → α → Except ε Bool)
    (value first : α) (rest : List α) (e : ε) (h : comp first value = .error e) :
    insert_sorted comp value (first :: rest) = .error e := by
  simp [insert_sorted, h, bind, Except.bind]

theorem sort_dates_cons (value : List Char) (rest : List (List Char)) :
    sort_dates (value :: rest) =
      (sort_dates rest).bind
        (fun mid => insert_sorted (fun rhs lhs => date_comparator rhs lhs) value mid) := rfl

theorem sort_dates_of_well_formed (dates : List (List Char))
    (h : ∀ date ∈ dates, well_formed date) :
    ∃ out, sort_dates dates = .ok out ∧ out.Perm dates := by
  have htriple : ∀ date ∈ dates,
      parsed_date date = some ((parsed_date date).getD ⟨0, 0, 0⟩) := by
    intro date hdate
    obtain ⟨p, hp⟩ := (well_formed_iff_parsed date).mp (h date hdate)
    simp [hp]
  obtain ⟨out, hout, hperm, _⟩ :=
    sort_spec (fun date => ((parsed_date date).getD ⟨0, 0, 0⟩).key)
      (fun rhs lhs => date_comparator rhs lhs) dates
      (fun x hx y hy => date_comparator_of_parsed (htriple x hx) (htriple y hy))
  exact ⟨out, hout, hperm⟩

theorem sort_dates_error_of_malformed (dates : List (List Char)) (hlen : 2 ≤ dates.length)
    (hbad : ∃ date ∈ dates, ¬ well_formed date) :
    ∃ origin, sort_dates dates = .error (.invalid_argument origin) := by
  induction dates with
  | nil => simp at hlen
  | cons value rest ih =>
    rw [sort_dates_cons]
    by_cases hrest : ∃ date ∈ rest, ¬ well_formed date
    · by_cases hlen' : 2 ≤ rest.length
      · obtain ⟨origin, horigin⟩ := ih hlen' hrest
        exact ⟨origin, by rw [horigin]; rfl⟩
      · have hone : rest.length = 1 := by
          simp only [List.length_cons] at hlen
          omega
        obtain ⟨only, rfl⟩ := List.length_eq_one.mp hone
        obtain ⟨date, hdate, hmal⟩ := hrest
        rw [List.mem_singleton] at hdate
        subst hdate
        obtain ⟨origin, horigin⟩ :=
          date_comparator_error_of_not_well_formed (a := date) (b := value) (fun hw => hmal hw.1)
        exact ⟨origin, insert_sorted_error_of_head _ value date [] _ horigin⟩
    · push_neg at hrest
      have hvalue : ¬ well_formed value := by
        obtain ⟨date, hdate, hmal⟩ := hbad
        rcases List.mem_cons.mp hdate with rfl | hdate
        · exact hmal
        · exact absurd (hrest date hdate) hmal
      obtain ⟨mid, hmid, hperm⟩ := sort_dates_of_well_formed rest hrest
      rw [hmid]
      cases mid with
      | nil =>
        have := hperm.length_eq
        simp only [List.length_nil, List.length_cons] at this hlen
        omega
      | cons first tail =>
        obtain ⟨origin, horigin⟩ :=
          date_comparator_error_of_not_well_formed (a := first) (b := value)
            (fun hw => hvalue hw.2)
        exact ⟨origin, insert_sorted_error_of_head _ value first tail _ horigin⟩

theorem split_loop_skip (delimiter : List Char) (skip : Nat) (value cur : List Char) :
    mtl.string.split_loop delimiter skip value cur =
      mtl.string.split_loop delimiter 0 (value.drop skip) cur := by
  induction value generalizing skip with
  | nil => cases skip <;> simp [mtl.string.split_loop]
  | cons c rest ih =>
    cases skip with
    | zero => rfl
    | succ skip => simp only [mtl.string.split_loop, List.drop_succ_cons]; exact ih skip

theorem split_loop_ne_nil (delimiter : List Char) (skip : Nat) (value cur : List Char) :
    mtl.string.split_loop delimiter skip value cur ≠ [] := by
  induction value generalizing skip cur with
  | nil => cases skip <;> simp [mtl.string.split_loop]
  | cons c rest ih =>
    cases skip with
    | succ skip => simp only [mtl.string.split_loop]; exact ih skip cur
    | zero =>
      simp only [mtl.string.split_loop]
      split
      · simp
      · exact ih 0 (c :: cur)

theorem join_all_cons (token : List Char) (rest : List (List Char)) (delimiter : List Char)
    (h : rest ≠ []) :
    mtl.string.join_all (token :: rest) delimiter =
      token ++ delimiter ++ mtl.string.join_all rest delimiter := by
  cases rest with
  | nil => exact absurd rfl h
  | cons r rs => rfl

theorem join_all_split_loop (delimiter : List Char) (hd : delimiter ≠ []) (n : Nat) :
    ∀ value cur : List Char, value.length ≤ n →
      mtl.string.join_all (mtl.string.split_loop delimiter 0 value cur) delimiter =
        cur.reverse ++ value := by
  induction n with
  | zero =>
    intro value cur hlen
    have : value = [] := List.length_eq_zero.mp (Nat.le_zero.mp hlen)
    subst this
    simp [mtl.string.split_loop, mtl.string.join_all]
  | succ n ih =>
    intro value cur hlen
    cases value with
    | nil => simp [mtl.string.split_loop, mtl.string.join_all]
    | cons c rest =>
      simp only [mtl.string.split_loop]
      split
      · rename_i hprefix
        obtain ⟨tail, htail⟩ := List.isPrefixOf_iff_prefix.mp hprefix
        have hdlen : 0 < delimiter.length := List.length_pos.mpr hd
        have hdrop : rest.drop (delimiter.length - 1) = tail := by
          have h₁ : (c :: rest).drop delimiter.length = tail := by
            rw [← htail, List.drop_left]
          have h₂ : delimiter.length = (delimiter.length - 1) + 1 := by omega
          rw [h₂, List.drop_succ_cons] at h₁
          exact h₁
        have htl : tail.length ≤ n := by
          have := congrArg List.length htail
          simp only [List.length_append, List.length_cons] at this hlen
          omega
        rw [split_loop_skip, hdrop, join_all_cons _ _ _ (split_loop_ne_nil _ _ _ _),
          ih tail [] htl, ← htail]
        simp
      · have hrl : rest.length ≤ n := by
          simp only [List.length_cons] at hlen
          omega
        rw [ih rest (c :: cur) hrl]
        simp

/-! Sorting a collection that holds a malformed date -/

/-- C11 (as stated, refuted): a collection that consists of the single malformed string
"2020/05" is sorted without any call of the comparator, so the sort returns it instead of
aborting. -/
theorem sort_dates_single_malformed_returns :
    ¬ well_formed "2020/05".toList ∧
    sort_dates ["2020/05".toList] = .ok ["2020/05".toList] := by
  decide

/-- C11 (amended): sorting with `date_comparator` aborts with `std::invalid_argument` for
every collection of at least two elements that contains a malformed date string, whatever
its position, rather than skipping the element or returning a result; so it does for
"2020/05" anywhere among other elements. -/
theorem sort_dates_aborts_on_malformed (dates : List (List Char))
    (hlen : 2 ≤ dates.length) (hbad : ∃ date ∈ dates, ¬ well_formed date) :
    (∃ origin, sort_dates dates = .error (.invalid_argument origin)) ∧
    ∀ before after : List (List Char), before ++ after ≠ [] →
      ∃ origin, sort_dates (before ++ "2020/05".toList :: after) =
        .error (.invalid_argument origin) := by
  refine ⟨sort_dates_error_of_malformed dates hlen hbad, fun before after hne => ?_⟩
  apply sort_dates_error_of_malformed
  · have : 0 < (before ++ after).length := List.length_pos.mpr hne
    simp only [List.length_append, List.length_cons] at this ⊢
    omega
  · exact ⟨"2020/05".toList, by simp, by decide⟩

theorem sort_dates_aborts_on_malformed_witness :
    2 ≤ ["04.05.2020".toList, "2020/05".toList, "03/05/2020".toList].length ∧
    (∃ date ∈ ["04.05.2020".toList, "2020/05".toList, "03/05/2020".toList],
      ¬ well_formed date) ∧
    ∃ origin, sort_dates ["04.05.2020".toList, "2020/05".toList, "03/05/2020".toList] =
      .error (.invalid_argument origin) :=
  ⟨by decide, ⟨"2020/05".toList, by decide, by decide⟩,
    (sort_dates_aborts_on_malformed
      ["04.05.2020".toList, "2020/05".toList, "03/05/2020".toList] (by decide)
      ⟨"2020/05".toList, by decide, by decide⟩).1⟩

/-! Normalization and field parsing -/

/-- C13: normalization is a pure character substitution: the normalized string has the
length of the input, has `/` at every position where the input has `-`, `.` or `/`, has the
input's character at every other position, and holds no `-` and no `.`. -/
theorem normalized_is_character_substitution (s : List Char) :
    (normalized s).length = s.length ∧
    (∀ (i : Nat) (c : Char), s[i]? = some c → is_separator c →
      (normalized s)[i]? = some '/') ∧
    (∀ (i : Nat) (c : Char), s[i]? = some c → ¬ is_separator c →
      (normalized s)[i]? = some c) ∧
    '-' ∉ normalized s ∧ '.' ∉ normalized s := by
  refine ⟨by simp [normalized_eq_map], ?_, ?_,
    not_mem_normalized s '-' (Or.inr (Or.inl rfl)) (by decide),
    not_mem_normalized s '.' (Or.inr (Or.inr rfl)) (by decide)⟩
  · intro i c hi hsep
    simp [normalized_eq_map, List.getElem?_map, hi, hsep]
  · intro i c hi hsep
    simp [normalized_eq_map, List.getElem?_map, hi, hsep]

/-- C14 (as stated, refuted): two triples of integer literals whose date strings are not
accepted. The year 99999999999 is a digit sequence that an `int` cannot hold, so its
conversion throws; the day `-1` is an integer literal that `mtl::to_num` converts, but in a
date its sign is taken for a separator and the string has four fields. -/
theorem integer_literal_dates_rejected :
    (unsigned_integer_literal "01".toList ∧ unsigned_integer_literal "99999999999".toList ∧
      ¬ well_formed "01/01/99999999999".toList ∧
      date_comparator "01/01/99999999999".toList "01/01/2020".toList =
        .error (.invalid_argument .to_num_failed)) ∧
    (valid_integer_literal "-1".toList ∧ to_num "-1".toList = .ok (-1) ∧
      valid_integer_literal "05".toList ∧ valid_integer_literal "2020".toList ∧
      ¬ well_formed "-1/05/2020".toList ∧
      date_comparator "-1/05/2020".toList "01/01/2020".toList =
        .error (.invalid_argument .incorrectly_formatted)) := by
  decide

/-- C14 (amended): no calendar validation is performed: for any six integer literals
written without a sign (digit sequences) whose values an `int` can hold, and any
separators, the two date strings built from them are accepted, parse to the values of the
literals, months and days out of the calendar's range included, and are ordered by
comparing these integers alone; "01/13/2020" is accepted, is after "31/12/2020" and before
"01/01/2021", and days 99 and 0 are accepted as well. -/
theorem no_calendar_validation (d₁ m₁ y₁ d₂ m₂ y₂ : List Char) (s₁ s₂ t₁ t₂ : Char)
    (hd₁ : unsigned_integer_literal d₁) (hm₁ : unsigned_integer_literal m₁)
    (hy₁ : unsigned_integer_literal y₁) (hd₂ : unsigned_integer_literal d₂)
    (hm₂ : unsigned_integer_literal m₂) (hy₂ : unsigned_integer_literal y₂)
    (rd₁ : (decimal_value d₁ : Int) ≤ INT_MAX) (rm₁ : (decimal_value m₁ : Int) ≤ INT_MAX)
    (ry₁ : (decimal_value y₁ : Int) ≤ INT_MAX) (rd₂ : (decimal_value d₂ : Int) ≤ INT_MAX)
    (rm₂ : (decimal_value m₂ : Int) ≤ INT_MAX) (ry₂ : (decimal_value y₂ : Int) ≤ INT_MAX)
    (hs₁ : is_separator s₁) (hs₂ : is_separator s₂)
    (ht₁ : is_separator t₁) (ht₂ : is_separator t₂) :
    (well_formed (d₁ ++ s₁ :: (m₁ ++ s₂ :: y₁)) ∧
      well_formed (d₂ ++ t₁ :: (m₂ ++ t₂ :: y₂)) ∧
      parsed_date (d₁ ++ s₁ :: (m₁ ++ s₂ :: y₁)) =
        some ⟨decimal_value d₁, decimal_value m₁, decimal_value y₁⟩ ∧
      parsed_date (d₂ ++ t₁ :: (m₂ ++ t₂ :: y₂)) =
        some ⟨decimal_value d₂, decimal_value m₂, decimal_value y₂⟩ ∧
      date_comparator (d₁ ++ s₁ :: (m₁ ++ s₂ :: y₁)) (d₂ ++ t₁ :: (m₂ ++ t₂ :: y₂)) =
        .ok (decide (decimal_value y₁ < decimal_value y₂ ∨
          (decimal_value y₁ = decimal_value y₂ ∧
            (decimal_value m₁ < decimal_value m₂ ∨
              (decimal_value m₁ = decimal_value m₂ ∧
                decimal_value d₁ < decimal_value d₂)))))) ∧
    (parsed_date "01/13/2020".toList = some ⟨1, 13, 2020⟩ ∧
      date_comparator "31/12/2020".toList "01/13/2020".toList = .ok true ∧
      date_comparator "01/13/2020".toList "31/12/2020".toList = .ok false ∧
      date_comparator "01/13/2020".toList "01/01/2021".toList = .ok true ∧
      parsed_date "99/13/2020".toList = some ⟨99, 13, 2020⟩ ∧
      parsed_date "0/05/2020".toList = some ⟨0, 5, 2020⟩) := by
  refine ⟨?_, by decide, by decide, by decide, by decide, by decide, by decide⟩
  have hfa := fields_of_three d₁ m₁ y₁ s₁ s₂ (separator_free_of_unsigned hd₁)
    (separator_free_of_unsigned hm₁) (separator_free_of_unsigned hy₁) hs₁ hs₂
  have hfb := fields_of_three d₂ m₂ y₂ t₁ t₂ (separator_free_of_unsigned hd₂)
    (separator_free_of_unsigned hm₂) (separator_free_of_unsigned hy₂) ht₁ ht₂
  have hpa := parsed_date_of_fields hfa (to_num_of_unsigned_in_range hd₁ rd₁)
    (to_num_of_unsigned_in_range hm₁ rm₁) (to_num_of_unsigned_in_range hy₁ ry₁)
  have hpb := parsed_date_of_fields hfb (to_num_of_unsigned_in_range hd₂ rd₂)
    (to_num_of_unsigned_in_range hm₂ rm₂) (to_num_of_unsigned_in_range hy₂ ry₂)
  refine ⟨(well_formed_iff_parsed _).mpr ⟨_, hpa⟩, (well_formed_iff_parsed _).mpr ⟨_, hpb⟩,
    hpa, hpb, ?_⟩
  rw [date_comparator_of_parsed hpa hpb]
  simp only [key_lt_iff, Nat.cast_lt, Nat.cast_inj]

theorem no_calendar_validation_witness :
    (unsigned_integer_literal "31".toList ∧ unsigned_integer_literal "12".toList ∧
      unsigned_integer_literal "2020".toList ∧ unsigned_integer_literal "01".toList ∧
      unsigned_integer_literal "13".toList) ∧
    ((decimal_value "31".toList : Int) ≤ INT_MAX ∧ (decimal_value "12".toList : Int) ≤ INT_MAX ∧
      (decimal_value "2020".toList : Int) ≤ INT_MAX ∧
      (decimal_value "01".toList : Int) ≤ INT_MAX ∧
      (decimal_value "13".toList : Int) ≤ INT_MAX) ∧
    parsed_date ("01".toList ++ '.' :: ("13".toList ++ '.' :: "2020".toList)) =
      some ⟨decimal_value "01".toList, decimal_value "13".toList,
        decimal_value "2020".toList⟩ ∧
    date_comparator ("31".toList ++ '/' :: ("12".toList ++ '/' :: "2020".toList))
        ("01".toList ++ '.' :: ("13".toList ++ '.' :: "2020".toList)) =
      .ok (decide (decimal_value "2020".toList < decimal_value "2020".toList ∨
        (decimal_value "2020".toList = decimal_value "2020".toList ∧
          (decimal_value "12".toList < decimal_value "13".toList ∨
            (decimal_value "12".toList = decimal_value "13".toList ∧
              decimal_value "31".toList < decimal_value "01".toList))))) := by
  have h := (no_calendar_validation "31".toList "12".toList "2020".toList "01".toList
    "13".toList "2020".toList '/' '/' '.' '.' (by decide) (by decide) (by decide) (by decide)
    (by decide) (by decide) (by decide) (by decide) (by decide) (by decide) (by decide)
    (by decide) (by decide) (by decide) (by decide) (by decide)).1
  exact ⟨by decide, by decide, h.2.2.2.1, h.2.2.2.2⟩

/-- C15: field conversion does not trim whitespace: when some field of either date begins
or ends with a character that is not a digit (a blank for instance), `date_comparator`
throws `std::invalid_argument`; " 04/05/2020", "04/05 /2020" and "04/05/2020x" are
rejected in either argument position. -/
theorem date_comparator_rejects_untrimmed_field (a b : List Char)
    (h : ∃ field ∈ fields a ++ fields b, ∃ c : Char, c.isDigit = false ∧
      (field.head? = some c ∨ field.getLast? = some c)) :
    (∃ origin, date_comparator a b = .error (.invalid_argument origin)) ∧
    (fields " 04/05/2020".toList = [" 04".toList, "05".toList, "2020".toList] ∧
      fields "04/05 /2020".toList = ["04".toList, "05 ".toList, "2020".toList] ∧
      fields "04/05/2020x".toList = ["04".toList, "05".toList, "2020x".toList]) ∧
    ∀ date ∈ [" 04/05/2020".toList, "04/05 /2020".toList, "04/05/2020x".toList],
      ∀ other : List Char,
        (∃ origin, date_comparator date other = .error (.invalid_argument origin)) ∧
        (∃ origin, date_comparator other date = .error (.invalid_argument origin)) := by
  have malformed : ∀ date : List Char, (∃ field ∈ fields date, ∃ c : Char,
      c.isDigit = false ∧ (field.head? = some c ∨ field.getLast? = some c)) →
      ¬ well_formed date := by
    rintro date ⟨field, hfield, c, hdigit, hpos⟩
    have hc : c ∈ field := by
      rcases hpos with hhead | hlast
      · exact List.mem_of_mem_head? hhead
      · exact List.mem_of_getLast?_eq_some hlast
    exact not_well_formed_of_non_digit hfield hc hdigit
  refine ⟨?_, ⟨by decide, by decide, by decide⟩, ?_⟩
  · obtain ⟨field, hfield, c, hdigit, hpos⟩ := h
    rcases List.mem_append.mp hfield with hfa | hfb
    · exact date_comparator_error_of_not_well_formed
        (fun hw => malformed a ⟨field, hfa, c, hdigit, hpos⟩ hw.1)
    · exact date_comparator_error_of_not_well_formed
        (fun hw => malformed b ⟨field, hfb, c, hdigit, hpos⟩ hw.2)
  · intro date hdate other
    have hmal : ¬ well_formed date := by
      simp only [List.mem_cons, List.mem_singleton, List.not_mem_nil, or_false] at hdate
      rcases hdate with rfl | rfl | rfl <;> decide
    exact ⟨date_comparator_error_of_not_well_formed (fun hw => hmal hw.1),
      date_comparator_error_of_not_well_formed (fun hw => hmal hw.2)⟩

theorem date_comparator_rejects_untrimmed_field_witness :
    (∃ field ∈ fields " 04/05/2020".toList ++ fields "04.05.2020".toList, ∃ c : Char,
      c.isDigit = false ∧ (field.head? = some c ∨ field.getLast? = some c)) ∧
    ∃ origin, date_comparator " 04/05/2020".toList "04.05.2020".toList =
      .error (.invalid_argument origin) :=
  ⟨⟨" 04".toList, by decide, ' ', by decide, Or.inl (by decide)⟩,
    (date_comparator_rejects_untrimmed_field " 04/05/2020".toList "04.05.2020".toList
      ⟨" 04".toList, by decide, ' ', by decide, Or.inl (by decide)⟩).1⟩

/-! The program around the sort, and the library round trip -/

/-- C16: when the sort throws `std::invalid_argument`, the program writes exactly the
exception message, then "Sorting failed." and "Exiting.", and ends with exit code 1;
neither the "SORTED DATES :" header nor any element of the collection is printed. -/
theorem sort_and_print_reports_failure (dates : List (List Char))
    (origin : invalid_argument_origin)
    (h : sort_dates dates = .error (.invalid_argument origin)) :
    ∃ run, sort_and_print dates = .ok run ∧
      run.output = [.what origin, .text "Sorting failed.", .text "Exiting."] ∧
      run.exit_code = 1 ∧ run.exit_code ≠ 0 ∧
      Printed.text "SORTED DATES :" ∉ run.output ∧
      ∀ value : List Char, Printed.date value ∉ run.output := by
  refine ⟨⟨[.what origin, .text "Sorting failed.", .text "Exiting."], 1⟩, ?_, rfl, rfl,
    Nat.one_ne_zero, ?_, ?_⟩
  · simp [sort_and_print, h]
  · simp
  · intro value
    simp

theorem sort_and_print_reports_failure_witness :
    sort_dates ["04.05.2020".toList, "2020/05".toList] =
      .error (.invalid_argument .incorrectly_formatted) ∧
    ∃ run, sort_and_print ["04.05.2020".toList, "2020/05".toList] = .ok run ∧
      run.output =
        [.what .incorrectly_formatted, .text "Sorting failed.", .text "Exiting."] ∧
      run.exit_code = 1 ∧ run.exit_code ≠ 0 ∧
      Printed.text "SORTED DATES :" ∉ run.output ∧
      ∀ value : List Char, Printed.date value ∉ run.output :=
  ⟨by decide,
    sort_and_print_reports_failure ["04.05.2020".toList, "2020/05".toList]
      .incorrectly_formatted (by decide)⟩

/-- C17 (as stated, refuted): with "04.05.2020" first and "02-05-2020" second, the
second-argument date is before the first-argument date and `date_comparator` returns
`false`, not `true`. -/
theorem date_comparator_false_when_second_is_before :
    parsed_date "04.05.2020".toList = some ⟨4, 5, 2020⟩ ∧
    parsed_date "02-05-2020".toList = some ⟨2, 5, 2020⟩ ∧
    date_comparator "02-05-2020".toList "04.05.2020".toList = .ok true ∧
    date_comparator "04.05.2020".toList "02-05-2020".toList = .ok false ∧
    date_comparator "04.05.2020".toList "02-05-2020".toList ≠ .ok true := by
  decide

/-- C17 (amended): for well-formed dates `date_comparator` returns `true` if the
first-argument (rhs) date is before the second-argument (lhs) date, and `false` in the
opposite case, when the second-argument date is before the first-argument date, as well as
when the two are the same date. -/
theorem date_comparator_true_only_when_first_is_before (a b : List Char)
    (ha : well_formed a) (hb : well_formed b) :
    ∃ pa pb, parsed_date a = some pa ∧ parsed_date b = some pb ∧
      (pa.key < pb.key → date_comparator a b = .ok true) ∧
      (pb.key < pa.key → date_comparator a b = .ok false) ∧
      (pa.key = pb.key → date_comparator a b = .ok false) := by
  obtain ⟨pa, hpa⟩ := (well_formed_iff_parsed a).mp ha
  obtain ⟨pb, hpb⟩ := (well_formed_iff_parsed b).mp hb
  refine ⟨pa, pb, hpa, hpb, ?_, ?_, ?_⟩ <;> intro hkey <;>
    rw [date_comparator_of_parsed hpa hpb]
  · simp [hkey]
  · simp [not_lt.mpr (le_of_lt hkey)]
  · simp [hkey]

theorem date_comparator_true_only_when_first_is_before_witness :
    well_formed "04.05.2020".toList ∧ well_formed "02-05-2020".toList ∧
    ∃ pa pb, parsed_date "04.05.2020".toList = some pa ∧
      parsed_date "02-05-2020".toList = some pb ∧
      (pa.key < pb.key → date_comparator "04.05.2020".toList "02-05-2020".toList = .ok true) ∧
      (pb.key < pa.key →
        date_comparator "04.05.2020".toList "02-05-2020".toList = .ok false) ∧
      (pa.key = pb.key →
        date_comparator "04.05.2020".toList "02-05-2020".toList = .ok false) :=
  ⟨by decide, by decide,
    date_comparator_true_only_when_first_is_before "04.05.2020".toList "02-05-2020".toList
      (by decide) (by decide)⟩

/-- C18: split and join are inverse: for every string `s` and non-empty delimiter `d`,
joining the tokens of `split(s, d)` with `d` gives back `s`; the README string
"Joe, Jill, Bill, Nick, Maria, Helen" splits on ", " into the six names and `join_all` of
the six names with ", " returns the string. -/
theorem join_all_split (s d : List Char) (hd : d ≠ []) :
    mtl.string.join_all (mtl.string.split s d) d = s ∧
    mtl.string.split "Joe, Jill, Bill, Nick, Maria, Helen".toList ", ".toList =
      ["Joe".toList, "Jill".toList, "Bill".toList, "Nick".toList, "Maria".toList,
        "Helen".toList] ∧
    mtl.string.join_all ["Joe".toList, "Jill".toList, "Bill".toList, "Nick".toList,
        "Maria".toList, "Helen".toList] ", ".toList =
      "Joe, Jill, Bill, Nick, Maria, Helen".toList := by
  refine ⟨?_, by decide, by decide⟩
  unfold mtl.string.split
  rw [if_neg hd, join_all_split_loop d hd s.length s [] (le_refl _)]
  rfl

theorem join_all_split_witness :
    ", ".toList ≠ [] ∧
    mtl.string.join_all (mtl.string.split "Joe, Jill, Bill".toList ", ".toList) ", ".toList =
      "Joe, Jill, Bill".toList :=
  ⟨by decide, (join_all_split "Joe, Jill, Bill".toList ", ".toList (by decide)).1⟩

/-- C19: empty fields are preserved by splitting and then rejected: a date string with two
consecutive separators or a leading or trailing separator has an empty field, and
`date_comparator` throws `std::invalid_argument` with it in either position: the one of
line 48 when a field count is not 3, the one of `mtl::to_num` otherwise. "04//2020" has
exactly three fields, the middle one empty; "04/05/2020/" and "/04/05/2020" have four. -/
theorem date_comparator_rejects_empty_field (a b : List Char) (h : has_empty_field a) :
    ([] ∈ fields a ∧ ¬ integer_parseable []) ∧
    (date_comparator a b = .error (.invalid_argument
        (if (fields a).length = 3 ∧ (fields b).length = 3 then .to_num_failed
          else .incorrectly_formatted)) ∧
      date_comparator b a = .error (.invalid_argument
        (if (fields a).length = 3 ∧ (fields b).length = 3 then .to_num_failed
          else .incorrectly_formatted))) ∧
    (fields "04//2020".toList = ["04".toList, [], "2020".toList] ∧
      (fields "04/05/2020/".toList).length = 4 ∧
      (fields "/04/05/2020".toList).length = 4 ∧
      has_empty_field "04//2020".toList ∧ has_empty_field "04/05/2020/".toList ∧
      has_empty_field "/04/05/2020".toList) := by
  have hempty := empty_field_of_has_empty_field h
  have hmal := not_well_formed_of_empty_field hempty
  refine ⟨⟨hempty, by decide⟩, ⟨?_, ?_⟩, by decide, by decide, by decide,
    Or.inl ⟨"04".toList, "2020".toList, '/', '/', by decide, by decide, by decide⟩,
    Or.inr (Or.inr ⟨"04/05/2020".toList, '/', by decide, by decide⟩),
    Or.inr (Or.inl ⟨"04/05/2020".toList, '/', by decide, by decide⟩)⟩
  · by_cases hlen : (fields a).length = 3 ∧ (fields b).length = 3
    · rw [if_pos hlen]
      exact date_comparator_to_num_failed hlen.1 hlen.2 (fun hw => hmal hw.1)
    · rw [if_neg hlen]
      exact date_comparator_bad_count (by tauto)
  · by_cases hlen : (fields a).length = 3 ∧ (fields b).length = 3
    · rw [if_pos hlen]
      exact date_comparator_to_num_failed hlen.2 hlen.1 (fun hw => hmal hw.2)
    · rw [if_neg hlen]
      exact date_comparator_bad_count (by tauto)

theorem date_comparator_rejects_empty_field_witness :
    has_empty_field "04//2020".toList ∧
    date_comparator "04//2020".toList "04.05.2020".toList =
      .error (.invalid_argument .to_num_failed) := by
  have h : has_empty_field "04//2020".toList :=
    Or.inl ⟨"04".toList, "2020".toList, '/', '/', by decide, by decide, by decide⟩
  refine ⟨h, ?_⟩
  have := (date_comparator_rejects_empty_field "04//2020".toList "04.05.2020".toList h).2.1.1
  rw [this]
  decide

/-- C20: `date_comparator` is total and its indexing is safe: for every pair of strings,
the empty ones included, it ends with a boolean or with `std::invalid_argument`, never with
an access past the end; either the throw of line 48 happens, or both split results have
exactly 3 elements and the accesses `parts[0]`, `parts[1]`, `parts[2]` are all in range. -/
theorem date_comparator_total_and_safe (a b : List Char) :
    ((∃ r, date_comparator a b = .ok r) ∨
      (∃ origin, date_comparator a b = .error (.invalid_argument origin))) ∧
    date_comparator a b ≠ .error .out_of_bounds ∧
    (date_comparator a b = .error (.invalid_argument .incorrectly_formatted) ∨
      ((fields a).length = 3 ∧ (fields b).length = 3 ∧
        ∀ i, i < 3 → (∃ part, at_index (fields a) i = .ok part) ∧
          (∃ part, at_index (fields b) i = .ok part))) ∧
    date_comparator [] [] = .error (.invalid_argument .incorrectly_formatted) ∧
    date_comparator [] "04.05.2020".toList =
      .error (.invalid_argument .incorrectly_formatted) := by
  have hends : (∃ r, date_comparator a b = .ok r) ∨
      (∃ origin, date_comparator a b = .error (.invalid_argument origin)) := by
    by_cases hw : well_formed a ∧ well_formed b
    · obtain ⟨pa, hpa⟩ := (well_formed_iff_parsed a).mp hw.1
      obtain ⟨pb, hpb⟩ := (well_formed_iff_parsed b).mp hw.2
      exact Or.inl ⟨_, date_comparator_of_parsed hpa hpb⟩
    · exact Or.inr (date_comparator_error_of_not_well_formed hw)
  refine ⟨hends, ?_, ?_, by decide, by decide⟩
  · rcases hends with ⟨r, hr⟩ | ⟨origin, horigin⟩
    · rw [hr]; simp
    · rw [horigin]; simp
  · by_cases hlen : (fields a).length ≠ 3 ∨ (fields b).length ≠ 3
    · exact Or.inl (date_comparator_bad_count hlen)
    · push_neg at hlen
      refine Or.inr ⟨hlen.1, hlen.2, fun i hi => ?_⟩
      obtain ⟨d₁, m₁, y₁, hfa⟩ := List.length_eq_three.mp hlen.1
      obtain ⟨d₂, m₂, y₂, hfb⟩ := List.length_eq_three.mp hlen.2
      rw [hfa, hfb]
      interval_cases i <;> simp [at_index]

/-! Helper lemmas on the number and the content of the fields -/

theorem length_split_loop_single (sep : Char) (value cur : List Char) :
    (mtl.string.split_loop [sep] 0 value cur).length = value.count sep + 1 := by
  induction value generalizing cur with
  | nil => simp [mtl.string.split_loop]
  | cons c rest ih =>
    rw [split_loop_single_cons]
    by_cases h : c = sep
    · subst h
      simp [ih]
    · have h' : (c == sep) = false := by simpa using h
      rw [if_neg h, ih, List.count_cons, h']
      simp

theorem separator_not_mem_token (sep : Char) (value cur token : List Char)
    (hcur : sep ∉ cur) (htoken : token ∈ mtl.string.split_loop [sep] 0 value cur) :
    sep ∉ token := by
  induction value generalizing cur with
  | nil =>
    simp only [mtl.string.split_loop, List.mem_singleton] at htoken
    subst htoken
    simpa using hcur
  | cons c rest ih =>
    rw [split_loop_single_cons] at htoken
    by_cases h : c = sep
    · rw [if_pos h] at htoken
      rcases List.mem_cons.mp htoken with rfl | hrest
      · simpa using hcur
      · exact ih [] (List.not_mem_nil _) hrest
    · rw [if_neg h] at htoken
      refine ih (c :: cur) ?_ htoken
      intro hmem
      rcases List.mem_cons.mp hmem with heq | hmem
      · exact h heq.symm
      · exact hcur hmem

theorem count_slash_normalized (text : List Char) :
    (normalized text).count '/' = text.countP (fun c => decide (is_separator c)) := by
  induction text with
  | nil => rfl
  | cons c cs ih =>
    rw [normalized_cons, List.countP_cons, List.count_cons, ih]
    by_cases h : is_separator c
    · simp [h]
    · have hc : c ≠ '/' := fun e => h (Or.inl e)
      simp [h, hc]

theorem fields_length (date : List Char) :
    (fields date).length = date.countP (fun c => decide (is_separator c)) + 1 := by
  rw [fields_eq_split_loop, length_split_loop_single, count_slash_normalized]

theorem field_separator_free {date field : List Char} (hfield : field ∈ fields date) :
    separator_free field := by
  intro c hc hsep
  by_cases hslash : c = '/'
  · subst hslash
    rw [fields_eq_split_loop] at hfield
    exact separator_not_mem_token '/' _ [] field (List.not_mem_nil _) hfield hc
  · exact not_mem_normalized date c hsep hslash (mem_field_mem_normalized hfield hc)

theorem to_num_nonneg_of_field {date field : List Char} (hw : well_formed date)
    (hfield : field ∈ fields date) {value : Int} (hvalue : to_num field = .ok value) :
    0 ≤ value := by
  have hne : field ≠ [] := by
    rintro rfl
    exact not_well_formed_of_empty_field hfield hw
  have hdigits : ∀ c ∈ field, c.isDigit = true := by
    intro c hc
    by_contra hnot
    exact not_well_formed_of_non_digit hfield hc (by simpa using hnot) hw
  rw [to_num_of_unsigned ⟨hne, hdigits⟩] at hvalue
  unfold in_int_range at hvalue
  split at hvalue
  · cases hvalue
    exact Int.natCast_nonneg _
  · cases hvalue

theorem parsed_date_nonneg {date : List Char} {p : ParsedDate} (hp : parsed_date date = some p) :
    0 ≤ p.day ∧ 0 ≤ p.month ∧ 0 ≤ p.year := by
  have hw : well_formed date := (well_formed_iff_parsed date).mpr ⟨p, hp⟩
  obtain ⟨d, m, y, hf, hd, hm, hy⟩ := parsed_date_eq_some hp
  exact ⟨to_num_nonneg_of_field hw (by simp [hf]) hd, to_num_nonneg_of_field hw (by simp [hf]) hm,
    to_num_nonneg_of_field hw (by simp [hf]) hy⟩

/-! Signed fields -/

/-- C21: because `-` is turned into a separator before splitting, no field handed to
integer parsing holds `-`, `.` or `/`; a three-field date with a minus sign put on a field
has four fields and is rejected with the field-count error of line 48 in either argument
position, as the strings with the signed year `-2020` after "01/01/" and with the signed
day "-1/05/2020" are; and the dates of a comparison that returns have no negative day, month
or year. -/
theorem signed_field_is_rejected (a b : List Char) :
    (∀ field ∈ fields a, ∀ c ∈ field, c ≠ '-' ∧ c ≠ '.' ∧ c ≠ '/') ∧
    (∀ before after : List Char, a = before ++ '-' :: after →
      (fields (before ++ after)).length = 3 →
      (fields a).length = 4 ∧
      date_comparator a b = .error (.invalid_argument .incorrectly_formatted) ∧
      date_comparator b a = .error (.invalid_argument .incorrectly_formatted)) ∧
    (∀ r, date_comparator a b = .ok r →
      ∃ pa pb, parsed_date a = some pa ∧ parsed_date b = some pb ∧
        (0 ≤ pa.day ∧ 0 ≤ pa.month ∧ 0 ≤ pa.year) ∧
        (0 ≤ pb.day ∧ 0 ≤ pb.month ∧ 0 ≤ pb.year)) ∧
    ((fields "01/01/-2020".toList).length = 4 ∧ (fields "-1/05/2020".toList).length = 4 ∧
      ∀ other : List Char,
        date_comparator "01/01/-2020".toList other =
          .error (.invalid_argument .incorrectly_formatted) ∧
        date_comparator other "01/01/-2020".toList =
          .error (.invalid_argument .incorrectly_formatted) ∧
        date_comparator "-1/05/2020".toList other =
          .error (.invalid_argument .incorrectly_formatted) ∧
        date_comparator other "-1/05/2020".toList =
          .error (.invalid_argument .incorrectly_formatted)) := by
  refine ⟨?_, ?_, ?_, by decide, by decide, fun other => ⟨?_, ?_, ?_, ?_⟩⟩
  · intro field hfield c hc
    have hfree := field_separator_free hfield c hc
    exact ⟨fun e => hfree (Or.inr (Or.inl e)), fun e => hfree (Or.inr (Or.inr e)),
      fun e => hfree (Or.inl e)⟩
  · rintro before after rfl hthree
    have hfour : (fields (before ++ '-' :: after)).length = 4 := by
      rw [fields_length] at hthree ⊢
      rw [List.countP_append] at hthree ⊢
      rw [List.countP_cons]
      have : decide (is_separator '-') = true := by decide
      simp only [this, if_true]
      omega
    exact ⟨hfour, date_comparator_bad_count (Or.inl (by omega)),
      date_comparator_bad_count (Or.inr (by omega))⟩
  · intro r hr
    have hw : well_formed a ∧ well_formed b := by
      by_contra hnot
      obtain ⟨origin, horigin⟩ := date_comparator_error_of_not_well_formed hnot
      rw [horigin] at hr
      cases hr
    obtain ⟨pa, hpa⟩ := (well_formed_iff_parsed a).mp hw.1
    obtain ⟨pb, hpb⟩ := (well_formed_iff_parsed b).mp hw.2
    exact ⟨pa, pb, hpa, hpb, parsed_date_nonneg hpa, parsed_date_nonneg hpb⟩
  · exact date_comparator_bad_count (Or.inl (by decide))
  · exact date_comparator_bad_count (Or.inr (by decide))
  · exact date_comparator_bad_count (Or.inl (by decide))
  · exact date_comparator_bad_count (Or.inr (by decide))

/-! The password generator -/

theorem randomize_length (random_choice : Nat → List Char → Char) (character_set : List Char)
    (call : Nat) (password : List Char) :
    (password_generator.randomize random_choice character_set call password).length =
      password.length := by
  induction password generalizing call with
  | nil => rfl
  | cons c rest ih => simp [password_generator.randomize, ih]

theorem randomize_mem (random_choice : Nat → List Char → Char) (character_set : List Char)
    (hchoice : ∀ call, random_choice call character_set ∈ character_set)
    (call : Nat) (password : List Char) :
    ∀ c ∈ password_generator.randomize random_choice character_set call password,
      c ∈ character_set := by
  induction password generalizing call with
  | nil => simp [password_generator.randomize]
  | cons x rest ih =>
    intro c hc
    simp only [password_generator.randomize, List.mem_cons] at hc
    rcases hc with rfl | hc
    · exact hchoice call
    · exact ih (call + 1) c hc

theorem generate_password_eq (max_size allocatable : Nat)
    (random_choice : Nat → List Char → Char)
    (size : Nat) (lowercase uppercase numbers special : Bool) :
    password_generator.generate_password max_size allocatable random_choice size lowercase
        uppercase numbers special =
      if size > max_size then .error .length_error
      else if size > allocatable then .error .bad_alloc
      else .ok (password_generator.randomize random_choice
        (password_generator.selected_character_set lowercase uppercase numbers special) 0
        (List.replicate size (Char.ofNat 0))) := by
  cases lowercase <;> cases uppercase <;> cases numbers <;> cases special <;> rfl

theorem selected_character_set_ne_nil (lowercase uppercase numbers special : Bool)
    (h : lowercase = true ∨ uppercase = true ∨ numbers = true ∨ special = true) :
    password_generator.selected_character_set lowercase uppercase numbers special ≠ [] := by
  cases lowercase <;> cases uppercase <;> cases numbers <;> cases special <;>
    first
      | decide
      | (simp at h)

/-- C23 (as stated, refuted): for the size `SIZE_MAX`, which is above `max_size()` whatever
the library (here with the largest value `max_size()` could have, `SIZE_MAX - 1`, and no
limit on memory), all four flags true and a `random_choice` that returns the first element
of its container, `generate_password` returns no string: `password.resize` throws
`std::length_error`. -/
theorem generate_password_throws_at_size_max :
    SIZE_MAX = 18446744073709551615 ∧
    (∀ (call : Nat) (container : List Char), container ≠ [] →
      (fun (_ : Nat) (container : List Char) => container.headD 'a') call container ∈
        container) ∧
    password_generator.generate_password (SIZE_MAX - 1) SIZE_MAX
        (fun _ container => container.headD 'a') SIZE_MAX true true true true =
      .error .length_error := by
  refine ⟨by decide, ?_, ?_⟩
  · intro call container hne
    cases container with
    | nil => exact absurd rfl hne
    | cons c cs => simp
  · rw [generate_password_eq, if_pos (by decide)]

/-- C23 (amended): for every size that `password.resize` accepts, that is every size up to
`max_size()` for which the allocation succeeds, and every choice of the four flags with at
least one of them true, `generate_password` returns a string of exactly `size` characters,
each of which belongs to the selected character set, the concatenation in the order
lowercase, uppercase, numeric, special of the alphabets whose flag is true (26, 26, 10 and
16 characters), provided `random_choice` returns an element of the container it is given;
for any other size `password.resize` throws and no string is returned. -/
theorem generate_password_length_and_alphabet (max_size allocatable : Nat)
    (random_choice : Nat → List Char → Char)
    (size : Nat) (lowercase uppercase numbers special : Bool)
    (hmax : max_size < SIZE_MAX) (hsize : size ≤ max_size) (halloc : size ≤ allocatable)
    (hflag : lowercase = true ∨ uppercase = true ∨ numbers = true ∨ special = true)
    (hchoice : ∀ (call : Nat) (container : List Char), container ≠ [] →
      random_choice call container ∈ container) :
    size < SIZE_MAX ∧
    (∃ password,
      password_generator.generate_password max_size allocatable random_choice size lowercase
        uppercase numbers special = .ok password ∧
      password.length = size ∧
      ∀ c ∈ password,
        c ∈ password_generator.selected_character_set lowercase uppercase numbers special) ∧
    (password_generator.lowercase_characters.length = 26 ∧
      password_generator.uppercase_characters.length = 26 ∧
      password_generator.numeric_characters.length = 10 ∧
      password_generator.special_characters.length = 16) ∧
    (∀ larger : Nat, max_size < larger →
      password_generator.generate_password max_size allocatable random_choice larger
        lowercase uppercase numbers special = .error .length_error) ∧
    (∀ larger : Nat, larger ≤ max_size → allocatable < larger →
      password_generator.generate_password max_size allocatable random_choice larger
        lowercase uppercase numbers special = .error .bad_alloc) := by
  refine ⟨lt_of_le_of_lt hsize hmax,
    ⟨password_generator.randomize random_choice
      (password_generator.selected_character_set lowercase uppercase numbers special) 0
      (List.replicate size (Char.ofNat 0)), ?_, ?_, ?_⟩,
    by decide, fun larger hlarger => ?_, fun larger hle hlarger => ?_⟩
  · rw [generate_password_eq, if_neg (not_lt.mpr hsize), if_neg (not_lt.mpr halloc)]
  · rw [randomize_length, List.length_replicate]
  · exact randomize_mem random_choice _
      (fun call => hchoice call _
        (selected_character_set_ne_nil lowercase uppercase numbers special hflag)) 0 _
  · rw [generate_password_eq, if_pos hlarger]
  · rw [generate_password_eq, if_neg (not_lt.mpr hle), if_pos hlarger]

theorem generate_password_length_and_alphabet_witness :
    SIZE_MAX - 1 < SIZE_MAX ∧ 12 ≤ SIZE_MAX - 1 ∧ 12 ≤ 4096 ∧
    ∃ password,
      password_generator.generate_password (SIZE_MAX - 1) 4096
        (fun _ container => container.headD 'a') 12 true false true false = .ok password ∧
      password.length = 12 ∧
      ∀ c ∈ password, c ∈ password_generator.selected_character_set true false true false := by
  have h := generate_password_length_and_alphabet (SIZE_MAX - 1) 4096
    (fun _ container => container.headD 'a') 12
    true false true false (by decide) (by decide) (by decide) (Or.inl rfl)
    (fun _ container hne => by
      cases container with
      | nil => exact absurd rfl hne
      | cons c cs => simp)
  exact ⟨by decide, by decide, by decide, h.2.1⟩

/-- C24: `rate_password_strength` prints exactly one rating for every input: "[STRONG]" if
and only if the length is above 10 and all four character classes are enabled, "[MEDIUM]"
if and only if the length is from 8 to 10 and all four classes are enabled, and "[WEAK]"
otherwise; so a password that lacks a class, or is shorter than 8, is rated "[WEAK]". -/
theorem rate_password_strength_rating (password_length : Nat)
    (lowercase uppercase numbers special : Bool) :
    ∃ rating foreground,
      password_generator.rate_password_strength password_length lowercase uppercase numbers
          special =
        [.print "\nGenerated passwords strength : ", .print_color rating foreground,
          .println ""] ∧
      (rating = "[STRONG]" ∨ rating = "[MEDIUM]" ∨ rating = "[WEAK]") ∧
      (rating = "[STRONG]" ↔ password_length > 10 ∧ lowercase = true ∧ uppercase = true ∧
        numbers = true ∧ special = true) ∧
      (rating = "[MEDIUM]" ↔ (8 ≤ password_length ∧ password_length ≤ 10) ∧
        lowercase = true ∧ uppercase = true ∧ numbers = true ∧ special = true) ∧
      (rating = "[WEAK]" ↔ ¬ (8 ≤ password_length ∧ lowercase = true ∧ uppercase = true ∧
        numbers = true ∧ special = true)) ∧
      ((lowercase = false ∨ uppercase = false ∨ numbers = false ∨ special = false ∨
        password_length < 8) → rating = "[WEAK]") := by
  have hsm : ("[STRONG]" : String) ≠ "[MEDIUM]" := by decide
  have hsw : ("[STRONG]" : String) ≠ "[WEAK]" := by decide
  have hmw : ("[MEDIUM]" : String) ≠ "[WEAK]" := by decide
  by_cases hall : lowercase = true ∧ uppercase = true ∧ numbers = true ∧ special = true
  · obtain ⟨rfl, rfl, rfl, rfl⟩ := hall
    by_cases hstrong : password_length > 10
    · refine ⟨"[STRONG]", .green, ?_, ?_⟩
      · simp [password_generator.rate_password_strength, hstrong]
      · simp [hsm, hsw]
        omega
    · by_cases hmedium : 8 ≤ password_length
      · refine ⟨"[MEDIUM]", .yellow, ?_, ?_⟩
        · have hle : password_length ≤ 10 := by omega
          simp [password_generator.rate_password_strength, hstrong, hmedium, hle]
        · simp [hsm.symm, hmw]
          omega
      · refine ⟨"[WEAK]", .red, ?_, ?_⟩
        · simp [password_generator.rate_password_strength, hstrong, hmedium]
        · simp [hsw.symm, hmw.symm]
          omega
  · refine ⟨"[WEAK]", .red, ?_, ?_⟩
    · have h₁ : ¬ (password_length > 10 ∧ lowercase = true ∧ uppercase = true ∧
          numbers = true ∧ special = true) := fun h => hall h.2
      have h₂ : ¬ (password_length ≥ 8 ∧ password_length ≤ 10 ∧ lowercase = true ∧
          uppercase = true ∧ numbers = true ∧ special = true) := fun h => hall h.2.2
      simp only [password_generator.rate_password_strength, h₁, h₂, if_false]
      rfl
    · refine ⟨Or.inr (Or.inr rfl), ?_, ?_, ?_, fun _ => rfl⟩
      · simp only [hsw.symm, false_iff]
        exact fun h => hall h.2
      · simp only [hmw.symm, false_iff]
        exact fun h => hall h.2
      · simp only [true_iff]
        exact fun h => hall h.2

theorem read_password_length_exit (input : List (List Char)) (password_length : Int)
    (h : (password_generator.read_password_length input).2 = some password_length) :
    6 ≤ password_length ∧ password_length ≤ 20 := by
  induction input with
  | nil => simp [password_generator.read_password_length] at h
  | cons line rest ih =>
    simp only [password_generator.read_password_length] at h
    split at h
    · rename_i value hvalue
      split at h
      · exact ih h
      · split at h
        · exact ih h
        · simp only [Option.some.injEq] at h
          subst h
          omega
    · exact ih h

/-- C25: the password-length input loop exits only with `6 <= password_length <= 20`: a
value below 6, a value above 20 and an input that is not a number each lead to another
iteration, and the first line holding a value from 6 to 20 ends the loop with that value.
So the conversion to `size_t` that follows never overflows, its `std::overflow_error`
branch is not reachable, and the requested length is the value read. -/
theorem read_password_length_in_range (input : List (List Char)) (password_length : Int)
    (h : (password_generator.read_password_length input).2 = some password_length) :
    (6 ≤ password_length ∧ password_length ≤ 20) ∧
    (mtl.numeric_cast_size_t password_length = .ok password_length.toNat ∧
      mtl.numeric_cast_size_t password_length ≠ .error .thrown ∧
      (password_length.toNat : Int) = password_length) ∧
    (∀ (line : List Char) (rest : List (List Char)),
      (to_num (mtl.string.strip line) = .error (.invalid_argument .to_num_failed) ∨
        ∃ value, to_num (mtl.string.strip line) = .ok value ∧ (value < 6 ∨ 20 < value)) →
      (password_generator.read_password_length (line :: rest)).2 =
        (password_generator.read_password_length rest).2) ∧
    (∀ (line : List Char) (rest : List (List Char)) (value : Int),
      to_num (mtl.string.strip line) = .ok value → 6 ≤ value → value ≤ 20 →
      password_generator.read_password_length (line :: rest) = ([], some value)) := by
  have hrange := read_password_length_exit input password_length h
  refine ⟨hrange, ?_, ?_, ?_⟩
  · have hcast : mtl.numeric_cast_size_t password_length = .ok password_length.toNat := by
      unfold mtl.numeric_cast_size_t
      rw [if_pos]
      refine ⟨by omega, ?_⟩
      have : ((SIZE_MAX : Nat) : Int) = 18446744073709551615 := by decide
      omega
    refine ⟨hcast, ?_, Int.toNat_of_nonneg (by omega)⟩
    rw [hcast]
    simp
  · rintro line rest (herr | ⟨value, hvalue, hout⟩)
    · simp [password_generator.read_password_length, herr]
    · simp only [password_generator.read_password_length, hvalue]
      rcases hout with hsmall | hbig
      · simp [hsmall]
      · have hnot : ¬ value < 6 := by omega
        simp [hnot, hbig]
  · intro line rest value hvalue hlow hhigh
    have h₁ : ¬ value < 6 := by omega
    have h₂ : ¬ value > 20 := by omega
    simp [password_generator.read_password_length, hvalue, h₁, h₂]

theorem read_password_length_in_range_witness :
    (password_generator.read_password_length
      [" abc".toList, "5".toList, "21".toList, " 12 ".toList, "7".toList]).2 = some 12 ∧
    (6 ≤ (12 : Int) ∧ (12 : Int) ≤ 20) ∧
    mtl.numeric_cast_size_t 12 = .ok (12 : Int).toNat := by
  have h : (password_generator.read_password_length
      [" abc".toList, "5".toList, "21".toList, " 12 ".toList, "7".toList]).2 = some 12 := by
    decide
  have hthm := read_password_length_in_range
    [" abc".toList, "5".toList, "21".toList, " 12 ".toList, "7".toList] 12 h
  exact ⟨h, hthm.1, hthm.2.1.1⟩

/-! The twelve dates of the program -/

theorem parsed_date_of_well_formed {date : List Char} (h : well_formed date) :
    parsed_date date = some ((parsed_date date).getD ⟨0, 0, 0⟩) := by
  obtain ⟨p, hp⟩ := (well_formed_iff_parsed date).mp h
  simp [hp]

theorem date_comparator_eq_key_lt {a b : List Char} (ha : well_formed a) (hb : well_formed b) :
    date_comparator a b = .ok (decide (date_key a < date_key b)) :=
  date_comparator_of_parsed (parsed_date_of_well_formed ha) (parsed_date_of_well_formed hb)

theorem parsed_date_eq_of_date_key_eq {a b : List Char} (ha : well_formed a)
    (hb : well_formed b) (h : date_key a = date_key b) : parsed_date a = parsed_date b := by
  rw [parsed_date_of_well_formed ha, parsed_date_of_well_formed hb]
  exact congrArg some ((key_eq_iff _ _).mp h)

theorem sorted_keys_of_comparator_sorted (out : List (List Char))
    (hwf : ∀ date ∈ out, well_formed date)
    (hs : out.Pairwise (fun x y => date_comparator y x = .ok false)) :
    (out.map date_key).Sorted (fun x y => x ≤ y) := by
  refine List.pairwise_map.mpr (hs.imp_of_mem ?_)
  intro x y hx hy hxy
  rw [date_comparator_eq_key_lt (hwf y hy) (hwf x hx)] at hxy
  simpa using hxy

theorem sorted_permutation_keys (dates out₁ out₂ : List (List Char))
    (hwf : ∀ date ∈ dates, well_formed date)
    (hp₁ : out₁.Perm dates) (hs₁ : out₁.Pairwise (fun x y => date_comparator y x = .ok false))
    (hp₂ : out₂.Perm dates) (hs₂ : out₂.Pairwise (fun x y => date_comparator y x = .ok false)) :
    out₁.map date_key = out₂.map date_key :=
  List.eq_of_perm_of_sorted ((hp₁.trans hp₂.symm).map date_key)
    (sorted_keys_of_comparator_sorted out₁ (fun d hd => hwf d (hp₁.mem_iff.mp hd)) hs₁)
    (sorted_keys_of_comparator_sorted out₂ (fun d hd => hwf d (hp₂.mem_iff.mp hd)) hs₂)

set_option maxRecDepth 100000 in
theorem dates_same_triple :
    ∀ x ∈ sort_dates_example.dates, ∀ y ∈ sort_dates_example.dates,
      parsed_date x = parsed_date y →
      x = y ∨ (x = "04.05.2020".toList ∧ y = "04-05-2020".toList) ∨
        (x = "04-05-2020".toList ∧ y = "04.05.2020".toList) := by
  decide

set_option maxRecDepth 100000 in
theorem dates_well_formed : ∀ date ∈ sort_dates_example.dates, well_formed date := by
  decide

set_option maxRecDepth 100000 in
theorem sort_dates_of_dates :
    sort_dates sort_dates_example.dates =
      .ok ["04/07/2018".toList, "02/04/2019".toList, "09.04.2019".toList, "22.04.2019".toList,
      "01/03/2020".toList, "02-05-2020".toList, "03/05/2020".toList, "04.05.2020".toList,
      "04-05-2020".toList, "05/11/2020".toList, "09/03/2021".toList, "12/04/2021".toList] := by
  decide

set_option maxRecDepth 100000 in
/-- C22: for the twelve dates hard-coded in the program every comparison returns, the sort
does not throw (the catch branch is not entered), and the program prints the header and
then the dates, each in its original spelling, in the order 04/07/2018, 02/04/2019,
09.04.2019, 22.04.2019, 01/03/2020, 02-05-2020, 03/05/2020, 04.05.2020, 04-05-2020,
05/11/2020, 09/03/2021, 12/04/2021; whatever correct sort is used, the result is this
order or the one with "04.05.2020" and "04-05-2020" exchanged. -/
theorem main_prints_dates_in_order :
    (∀ rhs ∈ sort_dates_example.dates, ∀ lhs ∈ sort_dates_example.dates,
      ∃ r, date_comparator rhs lhs = .ok r) ∧
    sort_dates sort_dates_example.dates =
      .ok ["04/07/2018".toList, "02/04/2019".toList, "09.04.2019".toList, "22.04.2019".toList,
      "01/03/2020".toList, "02-05-2020".toList, "03/05/2020".toList, "04.05.2020".toList,
      "04-05-2020".toList, "05/11/2020".toList, "09/03/2021".toList, "12/04/2021".toList] ∧
    sort_dates_example.main =
      .ok ⟨[.text "--------------", .text "SORTED DATES :", .text "--------------"] ++
        List.map Printed.date
          ["04/07/2018".toList, "02/04/2019".toList, "09.04.2019".toList, "22.04.2019".toList,
      "01/03/2020".toList, "02-05-2020".toList, "03/05/2020".toList, "04.05.2020".toList,
      "04-05-2020".toList, "05/11/2020".toList, "09/03/2021".toList, "12/04/2021".toList], 0⟩ ∧
    (∀ out : List (List Char), out.Perm sort_dates_example.dates →
      out.Pairwise (fun x y => date_comparator y x = .ok false) →
      out = ["04/07/2018".toList, "02/04/2019".toList, "09.04.2019".toList, "22.04.2019".toList,
      "01/03/2020".toList, "02-05-2020".toList, "03/05/2020".toList, "04.05.2020".toList,
      "04-05-2020".toList, "05/11/2020".toList, "09/03/2021".toList, "12/04/2021".toList] ∨
      out = ["04/07/2018".toList, "02/04/2019".toList, "09.04.2019".toList, "22.04.2019".toList,
      "01/03/2020".toList, "02-05-2020".toList, "03/05/2020".toList, "04-05-2020".toList,
      "04.05.2020".toList, "05/11/2020".toList, "09/03/2021".toList, "12/04/2021".toList]) := by
  refine ⟨?_, sort_dates_of_dates, ?_, ?_⟩
  · intro rhs hrhs lhs hlhs
    exact ⟨_, date_comparator_eq_key_lt (dates_well_formed rhs hrhs)
      (dates_well_formed lhs hlhs)⟩
  · simp only [sort_dates_example.main, sort_and_print, sort_dates_of_dates]
  intro out hp hs
  have hp₁ : List.Perm
      ["04/07/2018".toList, "02/04/2019".toList, "09.04.2019".toList, "22.04.2019".toList,
      "01/03/2020".toList, "02-05-2020".toList, "03/05/2020".toList, "04.05.2020".toList,
      "04-05-2020".toList, "05/11/2020".toList, "09/03/2021".toList, "12/04/2021".toList]
      sort_dates_example.dates := by
    obtain ⟨sorted, hsorted, hperm⟩ :=
      sort_dates_of_well_formed sort_dates_example.dates dates_well_formed
    rw [sort_dates_of_dates] at hsorted
    cases hsorted
    exact hperm
  have hs₁ : List.Pairwise (fun x y => date_comparator y x = .ok false)
      ["04/07/2018".toList, "02/04/2019".toList, "09.04.2019".toList, "22.04.2019".toList,
      "01/03/2020".toList, "02-05-2020".toList, "03/05/2020".toList, "04.05.2020".toList,
      "04-05-2020".toList, "05/11/2020".toList, "09/03/2021".toList, "12/04/2021".toList] := by
    decide
  have hkeys := sorted_permutation_keys sort_dates_example.dates out _ dates_well_formed
    hp hs hp₁ hs₁
  have pick : ∀ x y : List Char, x ∈ sort_dates_example.dates →
      y ∈ sort_dates_example.dates → date_key x = date_key y →
      x = y ∨ (x = "04.05.2020".toList ∧ y = "04-05-2020".toList) ∨
        (x = "04-05-2020".toList ∧ y = "04.05.2020".toList) :=
    fun x y hx hy hxy => dates_same_triple x hx y hy
      (parsed_date_eq_of_date_key_eq (dates_well_formed x hx) (dates_well_formed y hy) hxy)
  have hnodup : out.Nodup := hp.nodup_iff.mpr (by decide)
  simp only [List.map_cons, List.map_nil, List.map_eq_cons_iff, List.map_eq_nil_iff] at hkeys
  obtain ⟨o1, r1, rfl, h1, o2, r2, rfl, h2, o3, r3, rfl, h3,
    o4, r4, rfl, h4, o5, r5, rfl, h5, o6, r6, rfl, h6,
    o7, r7, rfl, h7, o8, r8, rfl, h8, o9, r9, rfl, h9,
    o10, r10, rfl, h10, o11, r11, rfl, h11, o12, r12, rfl, h12,
    rfl⟩ := hkeys
  have e1 : o1 = "04/07/2018".toList := by
    rcases pick o1 "04/07/2018".toList (hp.mem_iff.mp (by simp)) (by decide) h1
      with h | ⟨_, h⟩ | ⟨_, h⟩
    · exact h
    · exact absurd h (by decide)
    · exact absurd h (by decide)
  have e2 : o2 = "02/04/2019".toList := by
    rcases pick o2 "02/04/2019".toList (hp.mem_iff.mp (by simp)) (by decide) h2
      with h | ⟨_, h⟩ | ⟨_, h⟩
    · exact h
    · exact absurd h (by decide)
    · exact absurd h (by decide)
  have e3 : o3 = "09.04.2019".toList := by
    rcases pick o3 "09.04.2019".toList (hp.mem_iff.mp (by simp)) (by decide) h3
      with h | ⟨_, h⟩ | ⟨_, h⟩
    · exact h
    · exact absurd h (by decide)
    · exact absurd h (by decide)
  have e4 : o4 = "22.04.2019".toList := by
    rcases pick o4 "22.04.2019".toList (hp.mem_iff.mp (by simp)) (by decide) h4
      with h | ⟨_, h⟩ | ⟨_, h⟩
    · exact h
    · exact absurd h (by decide)
    · exact absurd h (by decide)
  have e5 : o5 = "01/03/2020".toList := by
    rcases pick o5 "01/03/2020".toList (hp.mem_iff.mp (by simp)) (by decide) h5
      with h | ⟨_, h⟩ | ⟨_, h⟩
    · exact h
    · exact absurd h (by decide)
    · exact absurd h (by decide)
  have e6 : o6 = "02-05-2020".toList := by
    rcases pick o6 "02-05-2020".toList (hp.mem_iff.mp (by simp)) (by decide) h6
      with h | ⟨_, h⟩ | ⟨_, h⟩
    · exact h
    · exact absurd h (by decide)
    · exact absurd h (by decide)
  have e7 : o7 = "03/05/2020".toList := by
    rcases pick o7 "03/05/2020".toList (hp.mem_iff.mp (by simp)) (by decide) h7
      with h | ⟨_, h⟩ | ⟨_, h⟩
    · exact h
    · exact absurd h (by decide)
    · exact absurd h (by decide)
  have e10 : o10 = "05/11/2020".toList := by
    rcases pick o10 "05/11/2020".toList (hp.mem_iff.mp (by simp)) (by decide) h10
      with h | ⟨_, h⟩ | ⟨_, h⟩
    · exact h
    · exact absurd h (by decide)
    · exact absurd h (by decide)
  have e11 : o11 = "09/03/2021".toList := by
    rcases pick o11 "09/03/2021".toList (hp.mem_iff.mp (by simp)) (by decide) h11
      with h | ⟨_, h⟩ | ⟨_, h⟩
    · exact h
    · exact absurd h (by decide)
    · exact absurd h (by decide)
  have e12 : o12 = "12/04/2021".toList := by
    rcases pick o12 "12/04/2021".toList (hp.mem_iff.mp (by simp)) (by decide) h12
      with h | ⟨_, h⟩ | ⟨_, h⟩
    · exact h
    · exact absurd h (by decide)
    · exact absurd h (by decide)
  subst e1 e2 e3 e4 e5 e6 e7 e10 e11 e12
  have e8 : o8 = "04.05.2020".toList ∨ o8 = "04-05-2020".toList := by
    rcases pick o8 "04.05.2020".toList (hp.mem_iff.mp (by simp)) (by decide) h8
      with h | ⟨h, _⟩ | ⟨h, _⟩
    · exact Or.inl h
    · exact Or.inl h
    · exact Or.inr h
  have e9 : o9 = "04.05.2020".toList ∨ o9 = "04-05-2020".toList := by
    rcases pick o9 "04-05-2020".toList (hp.mem_iff.mp (by simp)) (by decide) h9
      with h | ⟨h, _⟩ | ⟨h, _⟩
    · exact Or.inr h
    · exact Or.inl h
    · exact Or.inr h
  rcases e8 with rfl | rfl <;> rcases e9 with rfl | rfl
  · exact absurd hnodup (by decide)
  · exact Or.inl rfl
  · exact Or.inr rfl
  · exact absurd hnodup (by decide)
